import Mathlib

/-!
A verification development for the Drishti conversational-analytics bot.

The Python sources (`sql_builder.py`, `nlp_extractor.py`, `database.py`,
`business_logic_manager.py`, `config.py`, `distinct_cache.py`) are shallowly
embedded below: the configuration dictionaries become Lean lists, the pure
functions become Lean functions over explicit records, and the stateful
stores (query cache, feedback store) become explicit state-passing functions.
Machine integers are modelled as `Int`/`Nat` (no overflow is relevant here),
Python exceptions as `Except`, and Python `None`/falsy handling is mirrored
where it matters (empty strings are falsy).  Character-level operations
(`str.lower`, `\b` word boundaries, `\w`) are modelled over ASCII, which is
the character range the configuration and SQL fragments use.
-/

/-! ## Character and string primitives -/

/-- The ASCII single-quote character, written via its code point. -/
def sqC : Char := Char.ofNat 39

/-- ASCII uppercase letters. -/
def isUpperL (c : Char) : Bool := 'A' ≤ c && c ≤ 'Z'

/-- ASCII lower-casing of one character, as Python `str.lower` acts on ASCII. -/
def lcC (c : Char) : Char := if isUpperL c then Char.ofNat (c.toNat + 32) else c

/-- Lower-case a string (Python `str.lower` restricted to ASCII). -/
def lcS (s : String) : String := ⟨s.data.map lcC⟩

/-- ASCII letters, the characters SQL keywords are made of. -/
def isLetter (c : Char) : Bool := ('a' ≤ c && c ≤ 'z') || ('A' ≤ c && c ≤ 'Z')

/-- ASCII lowercase letters. -/
def isLowerLetter (c : Char) : Bool := 'a' ≤ c && c ≤ 'z'

/-- Python `\w` word characters (modelled over ASCII): letters, digits, `_`. -/
def isWordChar (c : Char) : Bool := isLetter c || c.isDigit || c = '_'

/-- Whitespace for Python `str.strip` / `\s` (ASCII whitespace). -/
def isWs (c : Char) : Bool := c = ' ' || c = '\t' || c = '\n' || c = '\r'

/-- `p` is a prefix of `s`, comparing characters with `f pat_char s_char`. -/
def mPre (f : Char → Char → Bool) : List Char → List Char → Bool
  | [], _ => true
  | _ :: _, [] => false
  | c :: p, d :: s => f c d && mPre f p s

/-- `p` occurs as a contiguous subsequence of `s` under matcher `f`. -/
def mInf (f : Char → Char → Bool) (p : List Char) : List Char → Bool
  | [] => mPre f p []
  | d :: s => mPre f p (d :: s) || mInf f p s

/-- Plain character equality as a matcher. -/
def eqC (a b : Char) : Bool := a = b

/-- Case-insensitive matcher: the pattern character (already lowercase)
against the lower-cased subject character. -/
def ciC (a b : Char) : Bool := a = lcC b

/-- `pat` occurs in `s` as a plain substring. -/
def containsSub (pat s : String) : Bool := mInf eqC pat.data s.data

/-- `pat` (a lowercase pattern) occurs in `s` case-insensitively. -/
def containsCI (pat s : String) : Bool := mInf ciC pat.data s.data

/-! ## Escaping, stripping, joining -/

/-- One character of Python `s.replace("'", "''")`. -/
def escC (c : Char) : List Char := if c = sqC then [sqC, sqC] else [c]

/-- Python `s.replace("'", "''")` on a character list. -/
def escL (l : List Char) : List Char := (l.map escC).flatten

/-- Python `s.replace("'", "''")`: double every single quote. -/
def escSq (s : String) : String := ⟨escL s.data⟩

/-- Python `", ".join(...)` and friends. -/
def joinSep (sep : String) : List String → String
  | [] => ""
  | [x] => x
  | x :: y :: xs => x ++ sep ++ joinSep sep (y :: xs)

/-- Left strip of ASCII whitespace. -/
def trimL (l : List Char) : List Char := l.dropWhile isWs

/-- Right strip of ASCII whitespace. -/
def trimR (l : List Char) : List Char := (l.reverse.dropWhile isWs).reverse

/-- Python `str.strip()` (ASCII whitespace). -/
def pyStrip (s : String) : String := ⟨trimR (trimL s.data)⟩

/-- ASCII digits. -/
def isDigitC (c : Char) : Bool := '0' ≤ c && c ≤ '9'

/-- The body of the regex `\d+(\.\d+)?` as a full match. -/
def numBody (l : List Char) : Bool :=
  let rest := l.dropWhile isDigitC
  (l.takeWhile isDigitC ≠ ([] : List Char) : Bool) &&
    (rest.isEmpty || (rest.head? = some '.' && !(rest.drop 1).isEmpty &&
      (rest.drop 1).all isDigitC))

/-- Python `re.fullmatch(r"-?\d+(\.\d+)?", s)` as a Bool. -/
def numericStr (s : String) : Bool :=
  match s.data with
  | '-' :: rest => numBody rest
  | l => numBody l

/-- Decimal digit expansion of a natural number (`f` is fuel ≥ number of digits). -/
def natDigsAux : Nat → Nat → List Char
  | 0, _ => []
  | _ + 1, 0 => []
  | f + 1, n => natDigsAux f (n / 10) ++ [Nat.digitChar (n % 10)]

/-- Python `str(n)` for a natural number. -/
def natStr (n : Nat) : String := if n = 0 then "0" else ⟨natDigsAux (n + 1) n⟩

/-- Python `str(i)` for an integer. -/
def intStr (i : Int) : String :=
  if i < 0 then "-" ++ natStr i.natAbs else natStr i.natAbs

/-! ## Configuration data (`config.py`) -/

/-- One Schema Registry entry (the fields the claims need). -/
structure ColMeta where
  data_type : String
  is_categorical : Bool
  pii_level : String
deriving DecidableEq

/-- A slice of `config.TABLE_SCHEMA` (split only to keep elaboration fast). -/
def tableSchemaPart0 : List (String × ColMeta) := [
  ("leadid", ⟨"bigint", false, "none"⟩),
  ("customerid", ⟨"bigint", false, "low"⟩),
  ("investmenttypeid", ⟨"int", true, "none"⟩),
  ("referralid", ⟨"bigint", false, "low"⟩),
  ("referralid2", ⟨"string", true, "low"⟩),
  ("covertypeid", ⟨"int", true, "none"⟩),
  ("leaddate", ⟨"date", false, "low"⟩),
  ("full_leaddate", ⟨"string", false, "low"⟩),
  ("leadmonth", ⟨"string", true, "low"⟩),
  ("lead_year", ⟨"string", true, "low"⟩),
  ("bookingdate", ⟨"date", false, "low"⟩),
  ("full_bookingdate", ⟨"string", false, "low"⟩),
  ("bookingmonth", ⟨"string", true, "low"⟩),
  ("booking_year", ⟨"string", true, "low"⟩),
  ("leadassigneddate", ⟨"date", false, "low"⟩),
  ("full_leadassigneddate", ⟨"string", false, "low"⟩),
  ("first_assigneddate", ⟨"string", false, "low"⟩),
  ("statusdate", ⟨"date", false, "low"⟩),
  ("issuancedate", ⟨"date", false, "low"⟩),
  ("revenuedate", ⟨"date", false, "low"⟩),
  ("customer_filled_first_transitype_date", ⟨"string", false, "low"⟩),
  ("policystartdate", ⟨"string", false, "low"⟩),
  ("policyenddate", ⟨"string", false, "low"⟩),
  ("paymentdate", ⟨"string", false, "low"⟩),
  ("contact_person_name", ⟨"string", false, "high"⟩),
  ("client", ⟨"string", true, "low"⟩),
  ("companyname", ⟨"string", true, "low"⟩),
  ("occupancyid", ⟨"int", true, "none"⟩),
  ("unsubscription_flag", ⟨"int", true, "none"⟩),
  ("occupancyname", ⟨"string", true, "none"⟩),
  ("parentcategoryid", ⟨"int", false, "none"⟩),
  ("occupancyname2", ⟨"string", true, "none"⟩)
]

/-- A slice of `config.TABLE_SCHEMA` (split only to keep elaboration fast). -/
def tableSchemaPart1 : List (String × ColMeta) := [
  ("booking_occupancy", ⟨"varchar(500)", true, "none"⟩),
  ("lead_occupancy", ⟨"varchar(500)", true, "none"⟩),
  ("mtx_occupancy", ⟨"varchar(500)", true, "none"⟩),
  ("leadassignedagentname", ⟨"varchar(100)", true, "low"⟩),
  ("currentlyassigneduser", ⟨"varchar(100)", true, "low"⟩),
  ("leadreportingmanagername", ⟨"string", true, "low"⟩),
  ("leadreportingmanagername2", ⟨"varchar(100)", true, "low"⟩),
  ("lead_agentid", ⟨"varchar(255)", false, "none"⟩),
  ("lead_manager_id", ⟨"varchar(100)", false, "low"⟩),
  ("first_assigned_agent", ⟨"varchar(100)", true, "low"⟩),
  ("first_assigned_agentid", ⟨"varchar(255)", false, "low"⟩),
  ("booking_agent", ⟨"varchar(100)", true, "low"⟩),
  ("booking_agent_manager", ⟨"string", true, "low"⟩),
  ("booking_agent_manager2", ⟨"varchar(100)", true, "low"⟩),
  ("booking_manager_id", ⟨"varchar(100)", false, "low"⟩),
  ("bookingagent_id", ⟨"varchar(255)", false, "low"⟩),
  ("lead2assignment_tat_mins", ⟨"double", false, "none"⟩),
  ("customer_filled_first_transitype", ⟨"string", true, "none"⟩),
  ("transittype2", ⟨"string", true, "none"⟩),
  ("assignedbyuserid", ⟨"bigint", false, "low"⟩),
  ("assigned_to_group_name", ⟨"varchar(200)", true, "none"⟩),
  ("assigntogroupid", ⟨"int", false, "none"⟩),
  ("parentid", ⟨"bigint", false, "none"⟩),
  ("transittype", ⟨"string", true, "none"⟩),
  ("state", ⟨"varchar(30)", true, "low"⟩),
  ("city", ⟨"varchar(50)", true, "low"⟩),
  ("city_tier", ⟨"int", true, "none"⟩),
  ("typeofpolicy", ⟨"string", true, "low"⟩),
  ("productname", ⟨"string", true, "none"⟩),
  ("lead_subproduct", ⟨"string", true, "none"⟩),
  ("lead_subproduct2", ⟨"varchar(50)", true, "none"⟩),
  ("booking_subproduct", ⟨"string", true, "none"⟩)
]

/-- A slice of `config.TABLE_SCHEMA` (split only to keep elaboration fast). -/
def tableSchemaPart2 : List (String × ColMeta) := [
  ("product_bucket", ⟨"string", true, "none"⟩),
  ("planname", ⟨"varchar(100)", true, "none"⟩),
  ("planid", ⟨"int", false, "none"⟩),
  ("leadeb_noneb", ⟨"string", true, "none"⟩),
  ("leadsource", ⟨"string", true, "low"⟩),
  ("leadcreationsource", ⟨"string", true, "low"⟩),
  ("utm_source", ⟨"string", true, "none"⟩),
  ("final_utmsource", ⟨"string", true, "none"⟩),
  ("utm_medium", ⟨"string", true, "none"⟩),
  ("utm_term", ⟨"string", false, "none"⟩),
  ("branchname", ⟨"string", true, "low"⟩),
  ("utm_campaign", ⟨"string", true, "none"⟩),
  ("utm_content", ⟨"string", true, "none"⟩),
  ("mkt_category", ⟨"string", true, "none"⟩),
  ("lead_department", ⟨"string", true, "low"⟩),
  ("is_lead_hybrid", ⟨"string", true, "none"⟩),
  ("booking_eb_noneb", ⟨"string", true, "none"⟩),
  ("booking_department", ⟨"string", true, "none"⟩),
  ("is_booking_hybrid", ⟨"string", true, "none"⟩),
  ("statusname", ⟨"varchar(50)", true, "low"⟩),
  ("bms_statusname", ⟨"varchar(50)", true, "low"⟩),
  ("statusid", ⟨"int", false, "none"⟩),
  ("statusby", ⟨"bigint", false, "low"⟩),
  ("substatusname", ⟨"varchar(100)", true, "low"⟩),
  ("substatusid", ⟨"int", false, "none"⟩),
  ("booking_status", ⟨"string", true, "low"⟩),
  ("suminsured", ⟨"double", false, "none"⟩),
  ("premium", ⟨"double", false, "none"⟩),
  ("brokerage", ⟨"double", false, "none"⟩),
  ("revenue", ⟨"double", false, "none"⟩),
  ("periodicityamount", ⟨"double", false, "none"⟩),
  ("insurername", ⟨"varchar(100)", true, "low"⟩)
]

/-- A slice of `config.TABLE_SCHEMA` (split only to keep elaboration fast). -/
def tableSchemaPart3 : List (String × ColMeta) := [
  ("supplierid", ⟨"int", false, "none"⟩),
  ("insurerfullname", ⟨"varchar(100)", true, "low"⟩),
  ("tpaname", ⟨"string", true, "low"⟩),
  ("totalnooflives", ⟨"int", false, "none"⟩),
  ("totalnoofemployees", ⟨"int", false, "none"⟩),
  ("paymentsource", ⟨"string", true, "low"⟩),
  ("policyno", ⟨"string", false, "low"⟩),
  ("paymentstatus", ⟨"bigint", true, "none"⟩),
  ("paymentstatus2", ⟨"bigint", true, "none"⟩),
  ("paymentsubstatus", ⟨"int", true, "none"⟩),
  ("paymentperiodicity", ⟨"string", true, "none"⟩),
  ("new_eb_payment_mode", ⟨"string", true, "none"⟩),
  ("policytype", ⟨"string", true, "none"⟩),
  ("ispaymentdone", ⟨"string", true, "none"⟩),
  ("isassisted", ⟨"string", true, "none"⟩),
  ("kycstatusid", ⟨"int", true, "low"⟩),
  ("kyctypeid", ⟨"int", true, "low"⟩),
  ("kyctype", ⟨"string", true, "low"⟩),
  ("kycstatus", ⟨"string", true, "low"⟩),
  ("is_pure", ⟨"string", true, "none"⟩),
  ("issuence", ⟨"string", true, "none"⟩),
  ("lead_count", ⟨"int", false, "none"⟩),
  ("booking_count", ⟨"int", false, "none"⟩),
  ("conversioncheck", ⟨"int", true, "none"⟩),
  ("cpmrto", ⟨"int", true, "none"⟩),
  ("customertype", ⟨"string", true, "low"⟩),
  ("continuepq", ⟨"string", false, "low"⟩),
  ("shipmenttype", ⟨"string", true, "none"⟩),
  ("leadgrade", ⟨"int", true, "none"⟩),
  ("leadrank", ⟨"int", true, "none"⟩),
  ("leadscore", ⟨"double", false, "none"⟩),
  ("exitpointurl", ⟨"string", false, "low"⟩)
]

/-- A slice of `config.TABLE_SCHEMA` (split only to keep elaboration fast). -/
def tableSchemaPart4 : List (String × ColMeta) := [
  ("mktcategory", ⟨"string", true, "none"⟩),
  ("mktcategoryfinal", ⟨"string", true, "none"⟩),
  ("lead_lob", ⟨"string", true, "none"⟩),
  ("booking_lob", ⟨"string", true, "none"⟩)
]

/-- `config.TABLE_SCHEMA`, in source order. -/
def TABLE_SCHEMA : List (String × ColMeta) :=
  tableSchemaPart0 ++ tableSchemaPart1 ++ tableSchemaPart2 ++ tableSchemaPart3 ++ tableSchemaPart4

/-- A slice of `config.PRODUCTS` (split only to keep elaboration fast). -/
def productsPart0 : List (String × Int) := [
  ("group health insurance", 1),
  ("group health", 1),
  ("ghi", 1),
  ("group personal accident", 2),
  ("group accident", 2),
  ("group term life", 3),
  ("group life", 3),
  ("group travel insurance", 4),
  ("group travel", 4),
  ("fire", 5),
  ("fire insurance", 5),
  ("burglary insurance", 6),
  ("burglary", 6),
  ("office package policy", 7),
  ("office package", 7),
  ("shop owners insurance", 8),
  ("shop owners", 8),
  ("key man insurance", 10),
  ("key man", 10),
  ("group gratuity insurance", 11),
  ("group gratuity", 11),
  ("general liability", 12),
  ("liability", 12),
  ("marine insurance", 13),
  ("marine", 13),
  ("professional indemnity for doctors", 14),
  ("doctors indemnity", 14),
  ("directors officers liability", 15),
  ("directors liability", 15),
  ("construction all risk", 16),
  ("construction risk", 16),
  ("erection all risk", 17)
]

/-- A slice of `config.PRODUCTS` (split only to keep elaboration fast). -/
def productsPart1 : List (String × Int) := [
  ("erection risk", 17),
  ("plant machinery", 18),
  ("plant", 18),
  ("machinery", 18),
  ("workmen compensation", 19),
  ("workmen comp", 19),
  ("workmen", 19),
  ("wc", 19),
  ("professional indemnity companies", 20),
  ("company indemnity", 20),
  ("cyber risk insurance", 21),
  ("cyber insurance", 21),
  ("cyber", 21),
  ("commercial crime insurance", 22),
  ("commercial crime", 22),
  ("product liability", 23),
  ("public liability", 24),
  ("opd", 25),
  ("event cancellation insurance", 26),
  ("event cancellation", 26),
  ("player loss of fees", 27),
  ("custom duty package policy", 28),
  ("custom duty", 28),
  ("transport operators liability", 29),
  ("transport liability", 29),
  ("credit insurance", 32),
  ("credit", 32),
  ("group care policy covid", 33),
  ("covid cover", 33),
  ("fleet insurance", 34),
  ("fleet", 34),
  ("clinical trial insurance", 35)
]

/-- A slice of `config.PRODUCTS` (split only to keep elaboration fast). -/
def productsPart2 : List (String × Int) := [
  ("clinical trial", 35),
  ("group total protect policy", 36),
  ("total protect", 36),
  ("aviation insurance", 37),
  ("aviation", 37),
  ("electric equipment insurance", 38),
  ("electric equipment", 38),
  ("fidelity insurance", 39),
  ("fidelity", 39),
  ("industrial all risk insurance", 40),
  ("industrial risk", 40),
  ("kisan suvidha bima policy", 41),
  ("kisan suvidha", 41),
  ("pet insurance", 42),
  ("pet", 42),
  ("cattle insurance", 43),
  ("cattle", 43),
  ("boiler pressure plant insurance", 44),
  ("boiler insurance", 44),
  ("plate glass insurance", 45),
  ("plate glass", 45),
  ("all risks insurance", 46),
  ("all risks", 46),
  ("money insurance", 47),
  ("money", 47),
  ("others", 99),
  ("edli scheme", 100),
  ("affinity insurance", 102),
  ("affinity", 102),
  ("group health top up insurance", 103),
  ("health top up", 103),
  ("group term top up insurance", 104)
]

/-- A slice of `config.PRODUCTS` (split only to keep elaboration fast). -/
def productsPart3 : List (String × Int) := [
  ("term top up", 104),
  ("machinery breakdown", 106),
  ("kidnap ransom extortion insurance", 110),
  ("kidnap insurance", 110),
  ("standard fire special perils", 112),
  ("fire special perils", 112),
  ("fire package policy", 113),
  ("portable equipment insurance", 114),
  ("portable equipment", 114),
  ("jewellers block insurance", 115),
  ("jewellers block", 115),
  ("neon sign", 116),
  ("drone insurance", 117),
  ("drone", 117),
  ("baggage", 119),
  ("travel", 120),
  ("petrol station package policy", 121),
  ("petrol station", 121),
  ("fire loss of profit", 122),
  ("bharat griha raksha", 123),
  ("special contingency policy", 184),
  ("professional indemnity medical establishments", 185),
  ("medical establishments indemnity", 185),
  ("cyber risk insurance individuals", 186),
  ("individual cyber", 186),
  ("carrier legal liability", 187),
  ("information communication technology liability", 188),
  ("ict liability", 188)
]

/-- `config.PRODUCTS`: alias -> canonical product id, in source order. -/
def PRODUCTS : List (String × Int) :=
  productsPart0 ++ productsPart1 ++ productsPart2 ++ productsPart3

/-- `config.SQL_PATTERNS`, in source order. -/
def SQL_PATTERNS : List (String × String) := [
  ("leads", "COUNT(*) as leads"),
  ("bookings", "COUNT(CASE WHEN booking_status='IssuedBusiness' THEN 1 END) as bookings"),
  ("revenue", "SUM(revenue) as total_revenue"),
  ("premium", "SUM(premium) as total_premium"),
  ("brokerage", "SUM(brokerage) as total_brokerage"),
  ("conversion_rate", "(COUNT(CASE WHEN booking_status='IssuedBusiness' THEN 1 END) * 100.0 / COUNT(*)) as conversion_rate"),
  ("avg_premium", "AVG(premium) as avg_premium"),
  ("sum_insured", "SUM(suminsured) as total_sum_insured"),
  ("lives_covered", "SUM(totalnooflives) as total_lives")
]

/-- `config.TIME_PATTERNS`, in source order. -/
def TIME_PATTERNS : List (String × String) := [
  ("today", "DATE(leaddate) = CURRENT_DATE"),
  ("yesterday", "DATE(leaddate) = CURRENT_DATE - INTERVAL '1' DAY"),
  ("this week", "leaddate >= DATE_TRUNC('week', CURRENT_DATE)"),
  ("last week", "leaddate >= DATE_TRUNC('week', CURRENT_DATE) - INTERVAL '7' DAY AND leaddate < DATE_TRUNC('week', CURRENT_DATE)"),
  ("this month", "leaddate >= DATE_TRUNC('month', CURRENT_DATE)"),
  ("last month", "leaddate >= DATE_TRUNC('month', CURRENT_DATE) - INTERVAL '1' MONTH AND leaddate < DATE_TRUNC('month', CURRENT_DATE)")
]

/-- `config.CACHE_TTL` (seconds). -/
def CACHE_TTL : Nat := 300

/-- First-match association lookup, modelling Python `dict.get` (the config
dict literals have pairwise-distinct keys). -/
def lookupA {α : Type} : List (String × α) → String → Option α
  | [], _ => none
  | (k, v) :: rest, key => if k = key then some v else lookupA rest key

/-- Python `col in TABLE_SCHEMA`. -/
def inSchema (col : String) : Bool := (lookupA TABLE_SCHEMA col).isSome

/-- Python `TABLE_SCHEMA[col].get("pii_level", "none")`. -/
def piiLevel (col : String) : String :=
  match lookupA TABLE_SCHEMA col with
  | some m => m.pii_level
  | none => "none"

/-- Python `TABLE_SCHEMA[col].get("is_categorical", False)`. -/
def isCategorical (col : String) : Bool :=
  match lookupA TABLE_SCHEMA col with
  | some m => m.is_categorical
  | none => false

/-- Python `TABLE_SCHEMA.get(col, {}).get("data_type", "")`. -/
def dataTypeOf (col : String) : String :=
  match lookupA TABLE_SCHEMA col with
  | some m => m.data_type
  | none => ""

/-! ## The SQL builder (`sql_builder.py`) -/

/-- Python `re.sub(r"^(not\s*|!=\s*|<>\s*)", "", s, flags=re.IGNORECASE).` -/
def stripNegRe (s : String) : String :=
  let l := s.data
  if mPre ciC "not".data l then ⟨(l.drop 3).dropWhile isWs⟩
  else if mPre eqC "!=".data l then ⟨(l.drop 2).dropWhile isWs⟩
  else if mPre eqC "<>".data l then ⟨(l.drop 2).dropWhile isWs⟩
  else s

/-- Python `s.startswith(pat)`. -/
def startsWith (pat s : String) : Bool := mPre eqC pat.data s.data

/-- One step of Python `str.replace` with a fixed nonempty pattern.  The
first argument is fuel (the subject's length always suffices: every step
consumes at least one subject character), kept structural so the function
reduces definitionally. -/
def replaceGo (p : Char) (ps rep : List Char) : Nat → List Char → List Char
  | 0, l => l
  | _, [] => []
  | f + 1, c :: rest =>
    if mPre eqC (p :: ps) (c :: rest) then
      rep ++ replaceGo p ps rep f (rest.drop ps.length)
    else c :: replaceGo p ps rep f rest

/-- Python `s.replace(pat, rep)` (left-to-right, non-overlapping; the empty
pattern never occurs in the embedded code, it is mapped to the identity). -/
def replaceAll (s pat rep : String) : String :=
  match pat.data with
  | [] => s
  | p :: ps => ⟨replaceGo p ps rep.data s.data.length s.data⟩

/-- The intent record handed to `build_sql` (`nlp_extractor` output shape).
`filters._fuzzy_value` is carried in its own field (Python pops it out of the
`filters` dict before the filter loop); a filter's values may be one string
or a list of strings, as in the JSON the extractor produces. -/
inductive FVal where
  | s (v : String)
  | l (vs : List String)

structure TimeInfo where
  key : Option String := none
  start_date : Option String := none
  end_date : Option String := none
  granularity : Option String := none

structure Entities where
  intent : String := "metric_query"
  products : List Int := []
  metric : Option String := none
  metrics : List String := []
  time : TimeInfo := {}
  dimensions : List String := []
  filters : List (String × FVal) := []
  fuzzy_value : Option String := none
  online_only : Bool := false

/-- `sql_builder._build_time_where`. -/
def build_time_where (time_key : Option String) (date_column : String) : List String :=
  match time_key with
  | none => []
  | some tk =>
    if tk = "" then []
    else
      match lookupA TIME_PATTERNS tk with
      | none => []
      | some pattern =>
        [replaceAll (replaceAll pattern "leaddate" date_column) "bookingdate" date_column]

/-- `sql_builder._validate_dimension`. -/
def validate_dimension (column : String) : Bool :=
  inSchema column && piiLevel column ≠ "high"

/-- `sql_builder._validate_filter_column`. -/
def validate_filter_column (column : String) : Bool :=
  inSchema column && isCategorical column

/-- `SQL_PATTERNS.get("leads", "COUNT(*) as leads")`. -/
def leadsExpr : String := (lookupA SQL_PATTERNS "leads").getD "COUNT(*) as leads"

/-- `SQL_PATTERNS.get(metric_key) if metric_key else None` (empty string falsy). -/
def metricExprOf (e : Entities) : Option String :=
  match e.metric with
  | some k => if k = "" then none else lookupA SQL_PATTERNS k
  | none => none

/-- The `metric_selects` list of the multi-metric branch (lines 45-49). -/
def metricSelects (e : Entities) : List String :=
  let ms := e.metrics.filterMap (fun m => lookupA SQL_PATTERNS m)
  if ms.isEmpty then [leadsExpr] else ms

/-- The value `metric_key` holds after lines 41-53 (in the multi-metric
branch it is left as the incoming metric; otherwise an unknown or missing
metric falls back to `"leads"`). -/
def metricKeyFinal (e : Entities) : Option String :=
  if e.metrics ≠ [] then e.metric
  else
    match metricExprOf e with
    | some _ => e.metric
    | none => some "leads"

/-- The value `metric_expr` holds after lines 41-53 (single-metric branch). -/
def metricExprFinal (e : Entities) : String :=
  match metricExprOf e with
  | some x => x
  | none => leadsExpr

/-- Date-column choice, lines 62-68. -/
def dateColumn (e : Entities) : String :=
  if metricKeyFinal e = some "bookings" ∨ "bookings" ∈ e.metrics then "bookingdate"
  else "leaddate"

/-- Product filter, lines 71-74. -/
def productClause (e : Entities) : List String :=
  if e.products.isEmpty then []
  else ["investmenttypeid IN (" ++ joinSep ", " (e.products.map intStr) ++ ")"]

/-- Time filter, lines 76-82: an explicit (truthy) start/end pair wins,
otherwise the named pattern. -/
def timeClause (e : Entities) : List String :=
  match e.time.start_date, e.time.end_date with
  | some sd, some ed =>
    if sd ≠ "" ∧ ed ≠ "" then
      ["DATE(" ++ dateColumn e ++ ") >= DATE '" ++ sd ++ "'",
       "DATE(" ++ dateColumn e ++ ") <= DATE '" ++ ed ++ "'"]
    else build_time_where e.time.key (dateColumn e)
  | _, _ => build_time_where e.time.key (dateColumn e)

/-- Flag filter, lines 84-87. -/
def flagClause (e : Entities) : List String :=
  if e.online_only then ["paymentstatus = 300"] else []

/-- `str(v).lower().strip() == 'not null'`. -/
def valIsNotNull (v : String) : Bool := pyStrip (lcS v) = "not null"

/-- `str(v).lower().strip() == 'null'`. -/
def valIsNull (v : String) : Bool := pyStrip (lcS v) = "null"

/-- Line 136 applied to line 133: the `val_part` obtained from one escaped
value — strip, remove a leading not/!=/<> marker, strip again. -/
def valPartOf (v : String) : String := pyStrip (stripNegRe (pyStrip v))

/-- Lines 168-169: the parenthesized OR-combination of the sub-clauses
(`None` when there are none, i.e. the `continue`). -/
def orGroup (subs : List String) : Option String :=
  if subs = [] then none else some ("(" ++ joinSep " OR " subs ++ ")")

/-- Lines 129-148: the `(is_negative, val_part, is_numeric)` triples built
from the escaped values that are not the literal null markers. -/
def clsOf (values : List String) : List (Bool × String × Bool) :=
  ((values.map escSq).filter (fun v => !(valIsNotNull v) && !(valIsNull v))).map (fun v =>
    let lv := lcS (pyStrip v)
    let isNeg := startsWith "not " lv || startsWith "!=" lv || startsWith "<>" lv
    (isNeg, valPartOf v, numericStr (valPartOf v)))

/-- Line 151: `numeric_vals`. -/
def numericValsOf (values : List String) : List String :=
  (clsOf values).filterMap (fun x => if !x.1 && x.2.2 then some x.2.1 else none)

/-- Line 153: `string_vals` (already quoted). -/
def stringValsOf (values : List String) : List String :=
  (clsOf values).filterMap (fun x =>
    if !x.1 && !x.2.2 then some ("'" ++ x.2.1 ++ "'") else none)

/-- Line 157: `not_numeric_vals`. -/
def notNumericValsOf (values : List String) : List String :=
  (clsOf values).filterMap (fun x => if x.1 && x.2.2 then some x.2.1 else none)

/-- Line 159: `not_string_vals` (already quoted). -/
def notStringValsOf (values : List String) : List String :=
  (clsOf values).filterMap (fun x =>
    if x.1 && !x.2.2 then some ("'" ++ x.2.1 ++ "'") else none)

/-- Lines 126-166: the `sub_clauses` list built from one filter's values. -/
def subsOf (col : String) (values : List String) : List String :=
  (if numericValsOf values ≠ [] then
      [col ++ " IN (" ++ joinSep ", " (numericValsOf values) ++ ")"] else [])
  ++ (if stringValsOf values ≠ [] then
      [col ++ " IN (" ++ joinSep ", " (stringValsOf values) ++ ")"] else [])
  ++ (if notNumericValsOf values ≠ [] then
        [col ++ " NOT IN (" ++ joinSep ", " (notNumericValsOf values) ++ ")"] else [])
  ++ (if notStringValsOf values ≠ [] then
        [col ++ " NOT IN (" ++ joinSep ", " (notStringValsOf values) ++ ")"] else [])
  ++ (if values.any valIsNotNull then [col ++ " IS NOT NULL"] else [])
  ++ (if values.any valIsNull then [col ++ " IS NULL"] else [])

/-- Lines 126-166: the OR-group built from one filter's list of values
(`values` raw, as the extractor supplied them). -/
def clauseFromList (col : String) (values : List String) : Option String :=
  if (values.map escSq).isEmpty then none
  else orGroup (subsOf col values)

/-- Lines 95-169: the clause one `(col, values)` filter entry contributes. -/
def filterClause (col : String) (values : FVal) : Option String :=
  if !(validate_filter_column col) && !(inSchema col) then none
  else
    match values with
    | .s v =>
      if valIsNotNull v then some (col ++ " IS NOT NULL")
      else if valIsNull v then some (col ++ " IS NULL")
      else clauseFromList col [v]
    | .l vs => clauseFromList col vs

/-- Lines 171-192: the fuzzy LIKE fallback.  `guessCols` stands for the
runtime value of `distinct_cache.get_effective_columns()`.  (The Python
list/dict normalisation of `fuzzy_value` is type coercion that the typed
model does not need: the fuzzy value is a string here.) -/
def fuzzyClause (e : Entities) (guessCols : List String) : List String :=
  match e.fuzzy_value with
  | none => []
  | some fv =>
    if fv = "" then []
    else if e.filters.any (fun kv => kv.1 ≠ "") then []
    else
      let gc := if inSchema "leadassignedagentname" && !(guessCols.contains "leadassignedagentname")
        then guessCols ++ ["leadassignedagentname"] else guessCols
      let lowered := escSq (lcS fv)
      let stringCols := gc.filter (fun c =>
        startsWith "varchar" (lcS (dataTypeOf c)) ||
          lcS (dataTypeOf c) = "string" || lcS (dataTypeOf c) = "text")
      let likes := stringCols.map (fun c =>
        "LOWER(CAST(" ++ c ++ " AS VARCHAR)) LIKE '%%" ++ lowered ++ "%%'")
      if likes = [] then [] else ["( " ++ joinSep " OR " likes ++ " )"]

/-- The `where_clauses` accumulator as it stands at line 253. -/
def whereClauses (e : Entities) (guessCols : List String) : List String :=
  productClause e ++ timeClause e ++ flagClause e
    ++ e.filters.filterMap (fun kv => filterClause kv.1 kv.2)
    ++ fuzzyClause e guessCols

/-- Line 202: dimensions surviving `_validate_dimension`. -/
def dimsUsed (e : Entities) : List String := e.dimensions.filter validate_dimension

/-- Lines 196-199: the initial SELECT list. -/
def baseSelect (e : Entities) : List String :=
  if e.metrics ≠ [] then metricSelects e else [metricExprFinal e]

/-- Lines 205-212. -/
def selWithDims (e : Entities) : List String :=
  if dimsUsed e ≠ [] then dimsUsed e ++ baseSelect e else baseSelect e

/-- Lines 205-212 (`group_by`). -/
def grpWithDims (e : Entities) : List String :=
  if dimsUsed e ≠ [] then dimsUsed e else []

/-- Lines 214-227: the `DATE_TRUNC` bucket for a month/week granularity. -/
def bucketStep (e : Entities) (sel grp : List String) : List String × List String :=
  match e.time.granularity with
  | some g =>
    if g = "month" ∨ g = "week" then
      let bexpr := if g = "month" then "DATE_TRUNC('month', " ++ dateColumn e ++ ")"
                   else "DATE_TRUNC('week', " ++ dateColumn e ++ ")"
      let balias := if g = "month" then "month" else "week"
      let sel2 := if sel.all (fun part => !(containsSub " AS month" part))
                  then (bexpr ++ " AS " ++ balias) :: sel else sel
      let grp2 := if grp.contains bexpr then grp else grp ++ [bexpr]
      (sel2, grp2)
    else (sel, grp)
  | none => (sel, grp)

/-- ASCII upper-casing of one character. -/
def ucC (c : Char) : Char := if isLowerLetter c then Char.ofNat (c.toNat - 32) else c

/-- Python `str.title()` over ASCII: the flag says whether the previous
character was a letter. -/
def titleGo : Bool → List Char → List Char
  | _, [] => []
  | prevAlpha, c :: rest =>
    (if prevAlpha then lcC c else ucC c) :: titleGo (isLetter c) rest

/-- Python `str.title()` (ASCII). -/
def titleS (s : String) : String := ⟨titleGo false s.data⟩

def updIdName (pid : Int) (name : String) : List (Int × String) → List (Int × String)
  | [] => [(pid, name)]
  | (p, n) :: rest => if p = pid then (p, name) :: rest else (p, n) :: updIdName pid name rest

def lookupI : List (Int × String) → Int → Option String
  | [], _ => none
  | (p, n) :: rest, pid => if p = pid then some n else lookupI rest pid

/-- Lines 232-240: `id_to_name`, keeping the longest alias per product id
(title-cased), with Python-dict insertion order. -/
def idToName : List (Int × String) :=
  PRODUCTS.foldl (fun acc ap =>
    match lookupI acc ap.2 with
    | none => updIdName ap.2 (titleS ap.1) acc
    | some best =>
      if best = "" ∨ ap.1.length > best.length then updIdName ap.2 (titleS ap.1) acc
      else acc) []

/-- Line 242: the WHEN arms of the product-name CASE. -/
def caseWhens : String :=
  joinSep " " (idToName.map (fun pn =>
    "WHEN investmenttypeid = " ++ intStr pn.1 ++ " THEN '" ++ escSq pn.2 ++ "'"))

/-- Line 243. -/
def productCaseSelect : String := "CASE " ++ caseWhens ++ " END AS product_name"

/-- Line 244. -/
def productCaseGroup : String := "CASE " ++ caseWhens ++ " END"

/-- Lines 229-249: product-name CASE injection when `investmenttypeid` is
among the (validated) dimensions. -/
def caseStep (e : Entities) (sel grp : List String) : List String × List String :=
  if (dimsUsed e).contains "investmenttypeid" then
    if idToName ≠ [] then
      ("investmenttypeid" :: productCaseSelect :: sel.filter (fun p => p ≠ "investmenttypeid"),
       if grp.contains productCaseGroup then grp else grp ++ [productCaseGroup])
    else (sel, grp)
  else (sel, grp)

/-- The final SELECT list and GROUP BY list. -/
def selGrp (e : Entities) : List String × List String :=
  let sg := bucketStep e (selWithDims e) (grpWithDims e)
  caseStep e sg.1 sg.2

/-- Lines 251-252: `sql` before the optional WHERE / GROUP BY suffixes. -/
def sqlBase (e : Entities) : String :=
  "SELECT " ++ joinSep ", " (selGrp e).1 ++ " FROM sme_analytics.sme_leadbookingrevenue"

/-- Lines 253-254. -/
def sqlWithWhere (e : Entities) (guessCols : List String) : String :=
  if whereClauses e guessCols = [] then sqlBase e
  else sqlBase e ++ " WHERE " ++ joinSep " AND " (whereClauses e guessCols)

/-- Lines 251-256: the assembled SQL text. -/
def sqlOf (e : Entities) (guessCols : List String) : String :=
  if (selGrp e).2 = [] then sqlWithWhere e guessCols
  else sqlWithWhere e guessCols ++ " GROUP BY " ++ joinSep ", " (selGrp e).2

structure BuildOut where
  intent : String
  sql : Option String

/-- `sql_builder.build_sql` (the returned explanation string, lines 258 and
262-275, is pure display text no claim refers to and is not modelled). -/
def build_sql (e : Entities) (guessCols : List String) : BuildOut :=
  if e.intent ≠ "metric_query" then ⟨e.intent, none⟩
  else ⟨"metric_query", some (sqlOf e guessCols)⟩

/-! ## The entity extractor's deterministic post-processing (`nlp_extractor.py`)

`NLPExtractor.extract` first obtains a draft record from the classification
capability (the LLM call, an external collaborator), then post-processes it
deterministically.  The post-processing steps the claims are about are
embedded as functions of the raw text and the draft fields. -/

/-- Is the character at index `i` a `\w` word character (out of range counts
as a non-word position, as at a string edge)? -/
def wcAt (s : List Char) (i : Nat) : Bool :=
  match s.get? i with
  | some c => isWordChar c
  | none => false

/-- Python `re` `\b` at position `i` of `s`: exactly one of the two adjacent
positions holds a word character. -/
def bndAt (s : List Char) (i : Nat) : Bool :=
  (match i with | 0 => false | j + 1 => wcAt s j) != wcAt s i

/-- `re.escape(pat)` then `\b pat \b` matching at position `i`. -/
def matchWBAt (pat s : List Char) (i : Nat) : Bool :=
  mPre eqC pat (s.drop i) && bndAt s i && bndAt s (i + pat.length)

/-- `re.search(r"\b" + re.escape(pat) + r"\b", text)` succeeds. -/
def occursWB (pat text : String) : Bool :=
  (List.range (text.data.length + 1)).any (fun i => matchWBAt pat.data text.data i)

/-- `id_to_aliases` of `extract` (lines 168-174): all aliases of one product
id, lower-cased, in `PRODUCTS` order. -/
def id_to_aliases (pid : Int) : List String :=
  (PRODUCTS.filter (fun ap => ap.2 = pid)).map (fun ap => lcS ap.1)

/-- Python `sorted(list({...}))` on integers. -/
def dedupSorted (l : List Int) : List Int :=
  List.insertionSort (· ≤ ·) l.dedup

/-- The "all products" phrases of lines 195-197. -/
def allProductsPhrases : List String :=
  ["all products", "all subproducts", "across products", "overall products",
   "overall subproducts"]

/-- `NLPExtractor.extract`, restricted to the `products` field (lines
139-140 and 164-203): the draft product list is deduplicated and sorted, a
draft id is kept only if one of its aliases of length at least 3 occurs with
word boundaries in the lower-cased text, and an explicit all-products phrase
clears the list.  (If the surrounding `try` fails the code sets `products`
to `[]`, which changes nothing the claims measure.) -/
def prodGrounded (user_text : String) (pid : Int) : Bool :=
  (id_to_aliases pid).any (fun a =>
    !(a = "") && decide (3 ≤ a.length) && occursWB a (lcS user_text))

def extractProducts (user_text : String) (draft : List Int) : List Int :=
  if allProductsPhrases.any (fun ph => containsSub ph (lcS user_text)) then []
  else dedupSorted ((dedupSorted draft).filter (prodGrounded user_text))

/-- `NLPExtractor._apply_wise_group_by` (lines 487-554), as it actually
evaluates.  The body first collects the "<tokens> wise" / "group by
<tokens>" tokens; if none are found it returns the record unchanged (lines
507-508).  Otherwise evaluation reaches line 522, `candidates = [col for
col, meta in TABLE_SCHEMA.items() ...]` — but `nlp_extractor.py` imports
only `PRODUCTS` and `SQL_PATTERNS` from `config` (line 16) and never
imports `TABLE_SCHEMA` (nor `rapidfuzz.process`/`fuzz`, used at line 542),
so the name lookup raises `NameError`, the enclosing `try/except Exception`
(lines 553-554) catches it, and the record is returned unchanged.  Hence on
every input the function is the identity on the record's `dimensions` and
`time` fields. -/
def apply_wise_group_by (_user_text : String) (dims : List String)
    (gran : Option String) : List String × Option String :=
  (dims, gran)

/-- The `dimensions` field `extract` returns, as a function of the draft
dimensions: no other post-processing step of `extract` touches
`dimensions`, so it is `_apply_wise_group_by`'s output. -/
def extractDimensions (user_text : String) (draftDims : List String) : List String :=
  (apply_wise_group_by user_text draftDims none).1

/-! ## The execution gateway (`database.py`)

Python object aliasing is made explicit with a heap of tables: `heap` holds
every DataFrame ever produced, a "reference" is an index into it, and the
query cache maps a SQL text (standing for its injective md5 key) to the
reference of the stored table and a timestamp. -/

/-- Upper-case a string (Python `str.upper` over ASCII). -/
def ucS (s : String) : String := ⟨s.data.map ucC⟩

/-- `SimpleDatabase._validate_sql`. -/
def validate_sql (s : String) : Bool :=
  let sqlUpper := pyStrip (ucS s)
  startsWith "SELECT" sqlUpper &&
    (["DROP", "DELETE", "INSERT", "UPDATE", "ALTER", "CREATE", "TRUNCATE"].all
      (fun kw => !(containsSub kw sqlUpper))) &&
    containsSub "sme_analytics.sme_leadbookingrevenue" (lcS s)

/-- A query result (a DataFrame's contents). -/
abbrev Table := List (List Nat)

structure DBState where
  heap : List Table
  cache : List (String × Nat × Nat)

/-- The table a reference designates. -/
def tableAt (st : DBState) (r : Nat) : Table := st.heap.getD r []

/-- Mutating the table behind a reference (e.g. pandas in-place edits by a
caller that received it). -/
def setTable (st : DBState) (r : Nat) (t : Table) : DBState :=
  { st with heap := st.heap.set r t }

/-- Python dict assignment `self.query_cache[k] = v`. -/
def updCache : List (String × Nat × Nat) → String → Nat × Nat → List (String × Nat × Nat)
  | [], k, v => [(k, v.1, v.2)]
  | (k0, r0, t0) :: rest, k, v =>
    if k0 = k then (k0, v.1, v.2) :: rest else (k0, r0, t0) :: updCache rest k v

/-- `SimpleDatabase.run_query` (lines 62-99).  `engine` is the warehouse
capability (`none` models a missing engine); `now` the current time.  On
success the returned `Nat` is the reference of the DataFrame handed to the
caller.  On a cache hit within `CACHE_TTL` the code returns `cached_data`
itself — the stored reference.  On execution it returns the fresh frame `r`
and stores a copy (`df.copy()`, an equal table under a distinct reference
`r + 1`) in the cache. -/
def run_query (st : DBState) (engine : Option (String → Table)) (sql : String)
    (use_cache : Bool) (now : Nat) : Except String (Nat × DBState) :=
  if pyStrip sql = "" then .error "Empty SQL query"
  else if !(validate_sql sql) then .error "SQL query failed security validation"
  else
    let hit := match (if use_cache then lookupA st.cache sql else none) with
      | some (r, ts) => if now - ts < CACHE_TTL then some r else none
      | none => none
    match hit with
    | some r => .ok (r, st)
    | none =>
      match engine with
      | none => .error "Database engine not available"
      | some ex =>
        let t := ex sql
        let r := st.heap.length
        if use_cache then
          .ok (r, { heap := st.heap ++ [t, t],
                    cache := updCache st.cache sql (r + 1, now) })
        else .ok (r, { st with heap := st.heap ++ [t] })

/-! ## The feedback / business-logic store (`business_logic_manager.py`)

The JSON files behind `_save_logics` are durable snapshots of the in-memory
lists; the model carries the lists.  Wall-clock display fields
(`timestamp`, `approved_at`) are irrelevant to every claim and omitted. -/

structure FeedbackItem where
  id : Nat
  user_id : String
  original_query : String
  feedback_text : String
  ctx_sql : Option String
  ctx_explanation : Option String
  status : String

structure LogicEntry where
  original_query : String
  logic_statement : String
  sql : String
  explanation : Option String
  approved_by : String

structure BLState where
  feedback_log : List FeedbackItem
  business_logics : List LogicEntry

/-- `BusinessLogicManager.store_feedback` (lines 134-147); `now` is
`int(time.time())`, the record id. -/
def store_feedback (st : BLState) (user_id original_query feedback_text : String)
    (ctx_sql ctx_explanation : Option String) (now : Nat) : BLState × Nat :=
  ({ st with feedback_log := st.feedback_log ++
      [⟨now, user_id, original_query, feedback_text, ctx_sql, ctx_explanation, "pending"⟩] },
   now)

/-- Python truthiness of `item.get("context", {}).get("sql")`. -/
def ctxSqlTruthy (it : FeedbackItem) : Bool :=
  match it.ctx_sql with
  | some s => s ≠ ""
  | none => false

/-- The Approved-Logic entry appended on approval (lines 156-163). -/
def mkLogicEntry (it : FeedbackItem) : LogicEntry :=
  { original_query := it.original_query, logic_statement := it.feedback_text,
    sql := it.ctx_sql.getD "", explanation := it.ctx_explanation,
    approved_by := "human_expert" }

/-- The `for item in self.feedback_log` loop: update the first item with the
given id and report it; later items are untouched (the loop returns). -/
def updateLoop (fid : Nat) (status : String) :
    List FeedbackItem → List FeedbackItem × Option FeedbackItem
  | [] => ([], none)
  | it :: rest =>
    if it.id = fid then
      (({ it with status := status }) :: rest, some { it with status := status })
    else
      let r := updateLoop fid status rest
      (it :: r.1, r.2)

/-- `BusinessLogicManager.update_feedback_status` (lines 149-167). -/
def update_feedback_status (st : BLState) (fid : Nat) (status : String) :
    BLState × Bool :=
  match updateLoop fid status st.feedback_log with
  | (log2, some it2) =>
    ({ feedback_log := log2,
       business_logics :=
         if status = "approved" && ctxSqlTruthy it2
         then st.business_logics ++ [mkLogicEntry it2]
         else st.business_logics }, true)
  | (log2, none) => ({ st with feedback_log := log2 }, false)

/-- `BusinessLogicManager.get_relevant_approved_logic` (lines 129-132): the
body is a `TODO` placeholder — it returns the empty list for every store
and query. -/
def get_relevant_approved_logic (_st : BLState) (_user_query : String) :
    List LogicEntry := []

/-- Python `str.split()` (split on whitespace runs, no empty parts). -/
def splitWsAux : List Char → List Char → List String
  | [], acc => if acc.isEmpty then [] else [⟨acc.reverse⟩]
  | c :: rest, acc =>
    if isWs c then
      (if acc.isEmpty then splitWsAux rest [] else ⟨acc.reverse⟩ :: splitWsAux rest [])
    else splitWsAux rest (c :: acc)

def splitWs (s : String) : List String := splitWsAux s.data []

/-- Modelled from the spec (§4.6 retrieval policy), for comparison with the
implementation: an approved entry is relevant if any word of length > 3
from its original query appears as a substring of the new query. -/
def specRelevantLogic (st : BLState) (user_query : String) : List LogicEntry :=
  st.business_logics.filter (fun en =>
    (splitWs en.original_query).any (fun w =>
      decide (3 < w.length) && containsSub w user_query))

/-! ## Claim C6: "ghi and wc" grounding and the product-name CASE -/

/-- `x` occurs as a contiguous part of `s`. -/
def hasPart (s x : String) : Prop :=
  ∃ pre post : List Char, s.data = pre ++ x.data ++ post

/-! ## Claim C10: quote escaping -/

/-- Every maximal run of single quotes in the list has even length (each
quote is part of a doubled pair), checked by a two-character scanner. -/
def quoteOk : List Char → Bool
  | [] => true
  | [c] => if c = sqC then false else true
  | c :: c2 :: rest =>
    if c = sqC then (if c2 = sqC then quoteOk rest else false)
    else quoteOk (c2 :: rest)

/-- A SQL-literal scanner: positioned just after an opening quote, consume
the literal body (`''` is an escaped quote, a lone `'` closes the literal)
and return what follows the closing quote, or `none` if unterminated. -/
def litScan : List Char → Option (List Char)
  | [] => none
  | [c] => if c = sqC then some [] else none
  | c :: c2 :: rest =>
    if c = sqC then (if c2 = sqC then litScan rest else some (c2 :: rest))
    else litScan (c2 :: rest)

/-! ## Claim C7: explicit date range wins over the named time key -/

/-- The named time-pattern fragments as substituted for a date column. -/
def timeFragsFor (dc : String) : List String :=
  TIME_PATTERNS.map (fun kv => replaceAll (replaceAll kv.2 "leaddate" dc) "bookingdate" dc)

/-- The disequality facts that separate a time-pattern fragment from every
other kind of WHERE clause. -/
def fragOkFor (dc : String) (f : String) : Bool :=
  !(f.data.head? = some 'i') && !(f.data.head? = some '(')
    && f.data.contains '(' && !(f = "paymentstatus = 300")
    && !(startsWith ("DATE(" ++ dc ++ ") >= DATE '") f)
    && !(startsWith ("DATE(" ++ dc ++ ") <= DATE '") f)

/-- Every column that exists in the schema registry: harmless name facts
(no SQL keyword, nonempty, no trailing `;`, no parenthesis). -/
def colOkB (s : String) : Bool :=
  !(s = "") && !(s.data.getLast? = some ';') && !(s.data.contains '(')

/-- A record carrying both an explicit date range and a named time key. -/
def c7Time : TimeInfo :=
  { key := some "this month", start_date := some "2025-01-01",
    end_date := some "2025-03-31" }

/-! ## Claim C1: SQL safety -/

/-- The gateway's mutating-keyword denylist, lower-cased for the
case-insensitive containment checks. -/
def mutKeywords : List String :=
  ["drop", "delete", "insert", "update", "alter", "create", "truncate"]

/-- The words whose absence we track through the builder: the mutating
keywords plus `from` (for the single-table property). -/
def sqlWords : List String := mutKeywords ++ ["from"]

/-- No word of `ws` occurs case-insensitively in `s`. -/
def wordsFreeB (ws : List String) (s : String) : Bool :=
  ws.all (fun w => !(containsCI w s))

/-- Well-formed word list: nonempty lowercase-letter words. -/
def wordsWfB (ws : List String) : Bool :=
  ws.all (fun w => !(w.data.isEmpty) && w.data.all isLowerLetter)

/-- The last character is missing or not a letter (a safe left boundary). -/
def lastNL (s : String) : Bool :=
  match s.data.getLast? with
  | some x => !(isLetter x)
  | none => true

/-- The first character is missing or not a letter (a safe right boundary). -/
def headNL (s : String) : Bool :=
  match s.data.head? with
  | some x => !(isLetter x)
  | none => true

/-- The value strings a filter entry carries. -/
def fvalList : FVal → List String
  | .s v => [v]
  | .l vs => vs

/-- The bucket expression of the month/week granularity step. -/
def bexprOf (e : Entities) (g : String) : String :=
  if g = "month" then "DATE_TRUNC('month', " ++ dateColumn e ++ ")"
  else "DATE_TRUNC('week', " ++ dateColumn e ++ ")"

/-- The optional `" WHERE ..."` suffix of the assembled SQL (line 253-254). -/
def wherePart (e : Entities) (gc : List String) : String :=
  if whereClauses e gc = [] then ""
  else " WHERE " ++ joinSep " AND " (whereClauses e gc)

/-- The optional `" GROUP BY ..."` suffix of the assembled SQL (line 255-256). -/
def groupPart (e : Entities) : String :=
  if (selGrp e).2 = [] then ""
  else " GROUP BY " ++ joinSep ", " (selGrp e).2

/-- An intent record whose filter value smuggles a mutating keyword. -/
def c1E : Entities :=
  { intent := "metric_query", filters := [("city", FVal.l ["dropout"])] }

/-- A benign intent record exercising every hypothesis of the amended C1. -/
def c1W : Entities :=
  { intent := "metric_query",
    products := [1, 19],
    time := { start_date := some "2025-01-01", end_date := some "2025-03-31" },
    dimensions := ["city"],
    filters := [("city", FVal.l ["Mumbai"])] }

theorem mPre_mono (f : Char → Char → Bool) (p s t : List Char)
    (h : mPre f p s = true) : mPre f p (s ++ t) = true := by
  induction p generalizing s with
  | nil => simp [mPre]
  | cons c p ih =>
    cases s with
    | nil => simp [mPre] at h
    | cons d s =>
      simp only [mPre, Bool.and_eq_true] at h ⊢
      exact ⟨h.1, ih s h.2⟩

theorem mInf_of_mPre (f : Char → Char → Bool) (p s : List Char)
    (h : mPre f p s = true) : mInf f p s = true := by
  cases s with
  | nil => simpa [mInf] using h
  | cons d s => simp [mInf, h]

theorem mInf_cons (f : Char → Char → Bool) (p : List Char) (d : Char) (s : List Char)
    (h : mInf f p s = true) : mInf f p (d :: s) = true := by
  simp [mInf, h]

theorem mInf_append_right (f : Char → Char → Bool) (p s t : List Char)
    (h : mInf f p t = true) : mInf f p (s ++ t) = true := by
  induction s with
  | nil => simpa using h
  | cons d s ih => simpa using mInf_cons f p d (s ++ t) ih

theorem mInf_append_left (f : Char → Char → Bool) (p s t : List Char)
    (h : mInf f p s = true) : mInf f p (s ++ t) = true := by
  induction s with
  | nil =>
    cases p with
    | nil =>
      cases t with
      | nil => simpa using h
      | cons d t => simp [mInf, mPre]
    | cons c p => simp [mInf, mPre] at h
  | cons d s ih =>
    simp only [mInf, Bool.or_eq_true, List.cons_append] at h ⊢
    rcases h with h | h
    · exact Or.inl (mPre_mono f p (d :: s) t h)
    · exact Or.inr (ih h)

/-- A pattern that is a prefix of `s ++ t` but not of `s` reaches both the
last character of `s` and the first character of `t`. -/
theorem mPre_span (f : Char → Char → Bool) (p s t : List Char)
    (h : mPre f p (s ++ t) = true) (hs : s ≠ []) (hlong : mPre f p s = false) :
    ∃ cl ch, cl ∈ p ∧ ch ∈ p ∧
      (∃ x, s.getLast? = some x ∧ f cl x = true) ∧
      (∃ d, t.head? = some d ∧ f ch d = true) := by
  induction s generalizing p with
  | nil => exact absurd rfl hs
  | cons x s ih =>
    cases p with
    | nil => simp [mPre] at hlong
    | cons c p =>
      simp only [List.cons_append, mPre, Bool.and_eq_true] at h
      rcases h with ⟨hfc, hrest⟩
      cases s with
      | nil =>
        simp only [mPre, hfc, Bool.true_and] at hlong
        cases p with
        | nil => simp [mPre] at hlong
        | cons c2 p2 =>
          cases t with
          | nil => simp [mPre] at hrest
          | cons d t =>
            simp only [List.nil_append, mPre, Bool.and_eq_true] at hrest
            exact ⟨c, c2, by simp, by simp, ⟨x, by simp, hfc⟩, ⟨d, by simp, hrest.1⟩⟩
      | cons y s' =>
        have hlong' : mPre f p (y :: s') = false := by
          cases hx : mPre f p (y :: s') with
          | false => rfl
          | true => simp [mPre, hfc, hx] at hlong
        obtain ⟨cl, ch, hcl, hch, hx1, hd1⟩ := ih p hrest (by simp) hlong'
        refine ⟨cl, ch, by simp [hcl], by simp [hch], ?_, hd1⟩
        obtain ⟨z, hz1, hz2⟩ := hx1
        exact ⟨z, by rw [List.getLast?_cons_cons]; exact hz1, hz2⟩

/-- An occurrence of a pattern in `a ++ b` that is in neither part alone
touches both the last character of `a` and the first character of `b`. -/
theorem mInf_span (f : Char → Char → Bool) (p a b : List Char)
    (h : mInf f p (a ++ b) = true)
    (ha : mInf f p a = false) (hb : mInf f p b = false) :
    ∃ cl ch, cl ∈ p ∧ ch ∈ p ∧
      (∃ x, a.getLast? = some x ∧ f cl x = true) ∧
      (∃ d, b.head? = some d ∧ f ch d = true) := by
  induction a with
  | nil => exact absurd (by simpa using h) (by simp [hb])
  | cons x a' ih =>
    simp only [List.cons_append, mInf, Bool.or_eq_true] at h
    have hnp : mPre f p (x :: a') = false := by
      cases hx : mPre f p (x :: a') with
      | false => rfl
      | true => exact absurd (mInf_of_mPre f p (x :: a') hx) (by simp [ha])
    rcases h with h | h
    · have := mPre_span f p (x :: a') b (by simpa using h) (by simp) hnp
      obtain ⟨cl, ch, hcl, hch, hx1, hd1⟩ := this
      exact ⟨cl, ch, hcl, hch, hx1, hd1⟩
    · have ha' : mInf f p a' = false := by
        cases hx : mInf f p a' with
        | false => rfl
        | true => exact absurd (mInf_cons f p x a' hx) (by simp [ha])
      cases a' with
      | nil => exact absurd (show mInf f p b = true by simpa using h) (by simp [hb])
      | cons y a'' =>
        obtain ⟨cl, ch, hcl, hch, hx1, hd1⟩ := ih h ha'
        refine ⟨cl, ch, hcl, hch, ?_, hd1⟩
        obtain ⟨z, hz1, hz2⟩ := hx1
        exact ⟨z, by rw [List.getLast?_cons_cons]; exact hz1, hz2⟩

theorem toNat_ofNat_valid (n : Nat) (h : n.isValidChar) : (Char.ofNat n).toNat = n := by
  unfold Char.ofNat
  rw [dif_pos h]
  unfold Char.ofNatAux Char.toNat
  simp [UInt32.toNat, UInt32.ofNat']

theorem isUpperL_iff (c : Char) : isUpperL c = true ↔ (65 ≤ c.toNat ∧ c.toNat ≤ 90) := by
  simp only [isUpperL, Bool.and_eq_true, decide_eq_true_eq, Char.le_def, UInt32.le_def]
  exact Iff.rfl

theorem isLowerLetter_iff (c : Char) :
    isLowerLetter c = true ↔ (97 ≤ c.toNat ∧ c.toNat ≤ 122) := by
  simp only [isLowerLetter, Bool.and_eq_true, decide_eq_true_eq, Char.le_def, UInt32.le_def]
  exact Iff.rfl

theorem isLetter_iff (c : Char) :
    isLetter c = true ↔ ((97 ≤ c.toNat ∧ c.toNat ≤ 122) ∨ (65 ≤ c.toNat ∧ c.toNat ≤ 90)) := by
  simp only [isLetter, Bool.or_eq_true, Bool.and_eq_true, decide_eq_true_eq,
    Char.le_def, UInt32.le_def]
  exact Iff.rfl

theorem lcC_toNat_of_upper {c : Char} (h : isUpperL c = true) :
    (lcC c).toNat = c.toNat + 32 := by
  rw [lcC, if_pos h]
  have hb := (isUpperL_iff c).1 h
  exact toNat_ofNat_valid _ (Or.inl (by omega))

theorem lcC_fix {c : Char} (h : isUpperL c = false) : lcC c = c := by
  rw [lcC, if_neg (by simp [h])]

theorem lcC_idem (c : Char) : lcC (lcC c) = lcC c := by
  cases h : isUpperL c with
  | false => rw [lcC_fix h, lcC_fix h]
  | true =>
    have ht := lcC_toNat_of_upper h
    have hb := (isUpperL_iff c).1 h
    apply lcC_fix
    cases hx : isUpperL (lcC c) with
    | false => rfl
    | true => have := (isUpperL_iff (lcC c)).1 hx; omega

theorem letter_of_lc {x : Char} (h : isLowerLetter (lcC x) = true) :
    isLetter x = true := by
  cases hx : isUpperL x with
  | false => rw [lcC_fix hx] at h; rw [isLetter_iff]; exact Or.inl ((isLowerLetter_iff x).1 h)
  | true => rw [isLetter_iff]; exact Or.inr ((isUpperL_iff x).1 hx)

theorem lcC_of_nonletter {c : Char} (h : isLetter c = false) : lcC c = c := by
  apply lcC_fix
  cases hx : isUpperL c with
  | false => rfl
  | true =>
    exfalso
    have := (isUpperL_iff c).1 hx
    rw [show isLetter c = true from (isLetter_iff c).2 (Or.inr this)] at h
    exact absurd h (by simp)

/-- A case-insensitive match of a lowercase-letter pattern character only
hits letters. -/
theorem ciC_letter {k c : Char} (hk : isLowerLetter k = true) (h : ciC k c = true) :
    isLetter c = true := by
  simp only [ciC, decide_eq_true_eq] at h
  subst h
  exact letter_of_lc hk

theorem ciC_lcC (k c : Char) : ciC k (lcC c) = ciC k c := by
  simp [ciC, lcC_idem]

/-- Keyword-freedom is preserved by concatenation when one of the two
boundary characters is not a letter (a keyword is all letters, so no
occurrence can span the boundary). -/
theorem kwFree_append (kw a b : List Char)
    (hkw : ∀ c ∈ kw, isLowerLetter c = true)
    (ha : mInf ciC kw a = false) (hb : mInf ciC kw b = false)
    (hbd : (∃ x, a.getLast? = some x ∧ isLetter x = false) ∨
           (∃ d, b.head? = some d ∧ isLetter d = false) ∨ a = [] ∨ b = []) :
    mInf ciC kw (a ++ b) = false := by
  cases hres : mInf ciC kw (a ++ b) with
  | false => rfl
  | true =>
    exfalso
    obtain ⟨cl, ch, hcl, hch, ⟨x, hx1, hx2⟩, ⟨d, hd1, hd2⟩⟩ :=
      mInf_span ciC kw a b hres ha hb
    have hxl : isLetter x = true := by
      have := hkw cl hcl
      rw [show cl = lcC x from by simpa [ciC] using hx2] at this
      exact letter_of_lc this
    have hdl : isLetter d = true := by
      have := hkw ch hch
      rw [show ch = lcC d from by simpa [ciC] using hd2] at this
      exact letter_of_lc this
    rcases hbd with ⟨y, hy1, hy2⟩ | ⟨e, he1, he2⟩ | hae | hbe
    · rw [hx1] at hy1; cases hy1; rw [hxl] at hy2; exact absurd hy2 (by simp)
    · rw [hd1] at he1; cases he1; rw [hdl] at he2; exact absurd he2 (by simp)
    · subst hae; simp at hx1
    · subst hbe; simp at hd1

/-! ### Transfer lemmas: occurrences through the string operations -/

/-- A nonempty pattern occurring in `s` matches some character of `s`. -/
theorem mInf_head_mem (f : Char → Char → Bool) (k : Char) (p s : List Char)
    (h : mInf f (k :: p) s = true) : ∃ c ∈ s, f k c = true := by
  induction s with
  | nil => simp [mInf, mPre] at h
  | cons d s ih =>
    simp only [mInf, Bool.or_eq_true] at h
    rcases h with h | h
    · simp only [mPre, Bool.and_eq_true] at h
      exact ⟨d, by simp, h.1⟩
    · obtain ⟨c, hc, hf⟩ := ih h
      exact ⟨c, by simp [hc], hf⟩

/-- A lowercase-letter keyword cannot occur in a string with no letters. -/
theorem kwFree_of_nonletters (kw s : List Char) (hne : kw ≠ [])
    (hkw : ∀ c ∈ kw, isLowerLetter c = true)
    (hs : ∀ c ∈ s, isLetter c = false) : mInf ciC kw s = false := by
  cases kw with
  | nil => exact absurd rfl hne
  | cons k p =>
    cases h : mInf ciC (k :: p) s with
    | false => rfl
    | true =>
      obtain ⟨c, hc, hf⟩ := mInf_head_mem ciC k p s h
      have := ciC_letter (hkw k (by simp)) hf
      rw [hs c hc] at this
      exact absurd this (by simp)

/-- Occurrences inside a contiguous part transfer to the whole. -/
theorem mInf_of_parts (f : Char → Char → Bool) (kw pre t post : List Char)
    (h : mInf f kw t = true) : mInf f kw (pre ++ t ++ post) = true :=
  mInf_append_left _ _ _ _ (mInf_append_right _ _ _ _ h)

theorem mPre_escL (kw : List Char) (hkw : ∀ c ∈ kw, isLowerLetter c = true)
    (l : List Char) (h : mPre ciC kw (escL l) = true) : mPre ciC kw l = true := by
  induction l generalizing kw with
  | nil =>
    cases kw with
    | nil => simp [mPre]
    | cons k p => simp [escL, mPre] at h
  | cons c l ih =>
    cases kw with
    | nil => simp [mPre]
    | cons k p =>
      by_cases hc : c = sqC
      · subst hc
        simp only [escL, List.map_cons, List.flatten_cons, escC, if_pos rfl,
          List.cons_append, mPre, Bool.and_eq_true] at h
        have : isLetter sqC = true := ciC_letter (hkw k (by simp)) h.1
        exact absurd this (by decide)
      · simp only [escL, List.map_cons, List.flatten_cons, escC, if_neg hc,
          List.cons_append, List.nil_append, mPre, Bool.and_eq_true] at h
        simp only [mPre, Bool.and_eq_true]
        exact ⟨h.1, ih p (fun x hx => hkw x (by simp [hx])) h.2⟩

/-- A lowercase-letter keyword occurring in the quote-escaped string occurs
in the original. -/
theorem mInf_escL (kw : List Char) (hkw : ∀ c ∈ kw, isLowerLetter c = true)
    (l : List Char) (h : mInf ciC kw (escL l) = true) : mInf ciC kw l = true := by
  induction l with
  | nil => simpa [escL] using h
  | cons c l ih =>
    by_cases hc : c = sqC
    · subst hc
      simp only [escL, List.map_cons, List.flatten_cons, escC, if_pos rfl,
        List.cons_append, mInf, Bool.or_eq_true] at h
      rcases h with h | h | h
      · rcases kw with _ | ⟨k, p⟩
        · exact mInf_of_mPre _ _ _ (by simp [mPre])
        · simp only [mPre, Bool.and_eq_true] at h
          have : isLetter sqC = true := ciC_letter (hkw k (by simp)) h.1
          exact absurd this (by decide)
      · rcases kw with _ | ⟨k, p⟩
        · exact mInf_of_mPre _ _ _ (by simp [mPre])
        · simp only [mPre, Bool.and_eq_true] at h
          have : isLetter sqC = true := ciC_letter (hkw k (by simp)) h.1
          exact absurd this (by decide)
      · exact mInf_cons _ _ _ _ (ih h)
    · simp only [escL, List.map_cons, List.flatten_cons, escC, if_neg hc,
        List.cons_append, List.nil_append, mInf, Bool.or_eq_true] at h
      rcases h with h | h
      · exact mInf_of_mPre _ _ _ (mPre_escL kw hkw (c :: l) (by
          simpa [escL, escC, if_neg hc] using h))
      · exact mInf_cons _ _ _ _ (ih h)

/-- Matching against a lower-cased subject is the same as matching the
subject (the matcher lower-cases anyway). -/
theorem mPre_map_lcC (kw l : List Char) :
    mPre ciC kw (l.map lcC) = mPre ciC kw l := by
  induction kw generalizing l with
  | nil => simp [mPre]
  | cons k p ih =>
    cases l with
    | nil => simp [mPre]
    | cons c l => simp [mPre, ciC_lcC, ih]

theorem mInf_map_lcC (kw l : List Char) :
    mInf ciC kw (l.map lcC) = mInf ciC kw l := by
  induction l with
  | nil => simp [mInf]
  | cons c l ih =>
    simp only [List.map_cons, mInf]
    rw [show (lcC c :: l.map lcC) = (c :: l).map lcC from by simp, mPre_map_lcC, ih]

/-! ## Shared lemmas -/

theorem mPre_self (l : List Char) : mPre eqC l l = true := by
  induction l with
  | nil => rfl
  | cons c rest ih => simp [mPre, eqC, ih]

theorem mInf_self (l : List Char) : mInf eqC l l = true :=
  mInf_of_mPre _ _ _ (mPre_self l)

/-- A member of a joined list is a contiguous part of the join. -/
theorem joinSep_parts (sep : String) (l : List String) (x : String) (hx : x ∈ l) :
    ∃ pre post : List Char, (joinSep sep l).data = pre ++ x.data ++ post := by
  induction l with
  | nil => cases hx
  | cons y ys ih =>
    cases ys with
    | nil =>
      rcases List.mem_singleton.1 hx with rfl
      exact ⟨[], [], by simp [joinSep]⟩
    | cons z zs =>
      rcases List.mem_cons.1 hx with rfl | hx'
      · refine ⟨[], (sep ++ joinSep sep (z :: zs)).data, ?_⟩
        simp [joinSep, String.data_append]
      · obtain ⟨pre, post, hp⟩ := ih hx'
        refine ⟨y.data ++ sep.data ++ pre, post, ?_⟩
        simp [joinSep, String.data_append, hp]

theorem containsSub_of_parts (x s : String)
    (h : ∃ pre post : List Char, s.data = pre ++ x.data ++ post) :
    containsSub x s = true := by
  obtain ⟨pre, post, hp⟩ := h
  unfold containsSub
  rw [hp]
  exact mInf_of_parts eqC x.data pre x.data post (mInf_self x.data)

theorem mem_dedupSorted (x : Int) (l : List Int) : x ∈ dedupSorted l ↔ x ∈ l := by
  unfold dedupSorted
  rw [(List.perm_insertionSort _ _).mem_iff, List.mem_dedup]

/-- `lookupA` only returns stored values. -/
theorem lookupA_mem {α : Type} (l : List (String × α)) (k : String) (v : α)
    (h : lookupA l k = some v) : (k, v) ∈ l := by
  induction l with
  | nil => simp [lookupA] at h
  | cons kv rest ih =>
    obtain ⟨a, b⟩ := kv
    simp only [lookupA] at h
    by_cases hk : a = k
    · rw [if_pos hk] at h
      injection h with h2
      subst hk; subst h2
      exact List.mem_cons_self _ _
    · rw [if_neg hk] at h
      exact List.mem_cons_of_mem _ (ih h)

theorem inSchema_mem (col : String) (h : inSchema col = true) :
    ∃ m, (col, m) ∈ TABLE_SCHEMA := by
  unfold inSchema at h
  cases hl : lookupA TABLE_SCHEMA col with
  | none => rw [hl] at h; simp [Option.isSome] at h
  | some m => exact ⟨m, lookupA_mem _ _ _ hl⟩

/-! ## Claim C8: approved-logic retrieval -/

/-- C8, counterexample.  The claim says the retrieval operation returns
exactly the entries whose original query shares a word of length > 3 with
the new query, and in particular a non-empty sequence for an overlapping
store/query pair.  The store below holds one approved entry whose original
query shares the word "revenue" with the new query, so the claimed result
(computed by the spec-modelled `specRelevantLogic`) is that one entry — but
`get_relevant_approved_logic` returns the empty list. -/
theorem c8_retrieval_counterexample :
    get_relevant_approved_logic
      ⟨[], [⟨"revenue breakdown by city", "count only paid bookings",
             "SELECT 1", none, "human_expert"⟩]⟩ "show revenue please" = [] ∧
    specRelevantLogic
      ⟨[], [⟨"revenue breakdown by city", "count only paid bookings",
             "SELECT 1", none, "human_expert"⟩]⟩ "show revenue please" =
      [⟨"revenue breakdown by city", "count only paid bookings",
        "SELECT 1", none, "human_expert"⟩] := by
  exact ⟨rfl, rfl⟩

/-- C8, amended: `get_relevant_approved_logic` is a placeholder that returns
the empty sequence for every store and every query (its body is `return []`
with a TODO for semantic search). -/
theorem c8_retrieval_amended (st : BLState) (q : String) :
    get_relevant_approved_logic st q = [] := rfl

/-! ## Claim C4: feedback approval -/

/-- C4, counterexample.  One SQL-bearing feedback record is stored and
approved twice.  The first approval appends one Approved-Logic entry and
returns true — but the repeated approval also appends a second entry
(`update_feedback_status` re-runs its append on every call), so the
transition is not free of duplicate side effects as the claim states. -/
theorem c4_approval_counterexample :
    (let st1 := (store_feedback ⟨[], []⟩ "U1" "fire revenue last month"
        "count only paid bookings" (some "SELECT 1") (some "expl") 100).1
     let u1 := update_feedback_status st1 100 "approved"
     let u2 := update_feedback_status u1.1 100 "approved"
     u1.2 = true ∧ u1.1.business_logics.length = 1 ∧
       u2.2 = true ∧ u2.1.business_logics.length = 2) := by
  exact ⟨rfl, rfl, rfl, rfl⟩

/-- C4, amended: whenever the first record with the given id carries truthy
SQL context, `update_feedback_status(id, 'approved')` returns true and
appends exactly one Approved-Logic entry — on the first call and on every
repeated call alike (the append is re-run each time; only the returned flag
is idempotent). -/
theorem c4_approval_amended (st : BLState) (fid : Nat) (it2 : FeedbackItem)
    (log2 : List FeedbackItem)
    (h : updateLoop fid "approved" st.feedback_log = (log2, some it2))
    (hs : ctxSqlTruthy it2 = true) :
    update_feedback_status st fid "approved" =
      ({ feedback_log := log2,
         business_logics := st.business_logics ++ [mkLogicEntry it2] }, true) := by
  unfold update_feedback_status
  rw [h]
  simp [hs]

/-- C4 witness: the amended theorem applied to a concrete one-record store. -/
theorem c4_approval_amended_witness :
    update_feedback_status
      ⟨[⟨100, "U1", "q", "fb", some "SELECT 1", none, "pending"⟩], []⟩ 100 "approved" =
      ({ feedback_log := [⟨100, "U1", "q", "fb", some "SELECT 1", none, "approved"⟩],
         business_logics :=
           [mkLogicEntry ⟨100, "U1", "q", "fb", some "SELECT 1", none, "approved"⟩] },
       true) :=
  c4_approval_amended _ 100 _ _ rfl rfl

/-! ## Claim C9: cache hits and copies -/

/-- C9, counterexample.  A first call executes and caches; the second call
is a cache hit and returns the stored reference itself (not a copy); a
caller mutating that table makes a later cache hit observe the mutation —
the claim said mutations of a returned table cannot reach later hits. -/
theorem c9_cache_counterexample :
    (let sql := "SELECT COUNT(*) as leads FROM sme_analytics.sme_leadbookingrevenue"
     let eng : Option (String → Table) := some (fun _ => [[1]])
     let st1 : DBState := ⟨[[[1]], [[1]]], [(sql, 1, 0)]⟩
     run_query ⟨[], []⟩ eng sql true 0 = .ok (0, st1) ∧
       run_query st1 eng sql true 10 = .ok (1, st1) ∧
       run_query (setTable st1 1 [[2]]) eng sql true 20 =
         .ok (1, setTable st1 1 [[2]]) ∧
       tableAt (setTable st1 1 [[2]]) 1 = [[2]] ∧ ([[2]] : Table) ≠ [[1]]) := by
  refine ⟨?_, ?_, ?_, rfl, by decide⟩ <;> rfl

/-- C9, amended: a cache hit within the TTL returns the stored reference
itself and leaves the state unchanged — the copy (`df.copy()`) is made only
when a result is stored at execution time, so the first caller's mutations
cannot reach the cache but a hit caller's mutations do. -/
theorem c9_cache_amended (st : DBState) (engine : Option (String → Table))
    (sql : String) (now r ts : Nat)
    (hne : ¬ (pyStrip sql = "")) (hv : validate_sql sql = true)
    (hc : lookupA st.cache sql = some (r, ts)) (hts : now - ts < CACHE_TTL) :
    run_query st engine sql true now = .ok (r, st) := by
  unfold run_query
  rw [if_neg hne, if_neg (by simp [hv]), hc]
  simp [hts]

/-- C9 witness: the amended theorem at a concrete cached state. -/
theorem c9_cache_amended_witness :
    run_query ⟨[[[1]], [[1]]],
        [("SELECT COUNT(*) as leads FROM sme_analytics.sme_leadbookingrevenue", 1, 0)]⟩
      none "SELECT COUNT(*) as leads FROM sme_analytics.sme_leadbookingrevenue"
      true 10 = .ok (1, ⟨[[[1]], [[1]]],
        [("SELECT COUNT(*) as leads FROM sme_analytics.sme_leadbookingrevenue", 1, 0)]⟩) :=
  c9_cache_amended _ none _ 10 1 0 (by decide) (by decide) rfl (by decide)

/-! ## Claim C5: "X wise" dimension augmentation -/

/-- C5: evaluation of the code at the failing input.  For the input
"leads agent wise last week" with a draft record proposing no dimensions,
`extract` returns the dimensions unchanged (empty) — not
`['leadassignedagentname']` as the spec's Scenario C states — because
`_apply_wise_group_by` dies on a `NameError` (`TABLE_SCHEMA`, `process`
and `fuzz` are never imported in `nlp_extractor.py`) that its blanket
`except` swallows. -/
theorem c5_wise_group_by_noop :
    extractDimensions "leads agent wise last week" [] = [] ∧
    (([] : List String) ≠ ["leadassignedagentname"]) :=
  ⟨rfl, by decide⟩

/-! ## Claim C2: product anti-hallucination -/

/-- C2: for every input text and every draft product list proposed by the
classification capability, every id in the `products` field `extract`
returns is grounded by an alias of that id occurring as a word-boundary
substring of the lower-cased input; and an explicit all-products phrase in
the input empties the list. -/
theorem c2_products_grounded (user_text : String) (draft : List Int) :
    (∀ pid ∈ extractProducts user_text draft,
      ∃ a ∈ id_to_aliases pid, occursWB a (lcS user_text) = true) ∧
    (allProductsPhrases.any (fun ph => containsSub ph (lcS user_text)) = true →
      extractProducts user_text draft = []) := by
  constructor
  · intro pid hpid
    unfold extractProducts at hpid
    by_cases hall : allProductsPhrases.any (fun ph => containsSub ph (lcS user_text)) = true
    · rw [if_pos hall] at hpid
      cases hpid
    · rw [if_neg hall] at hpid
      have hmem := (mem_dedupSorted _ _).1 hpid
      have hfil := (List.mem_filter.1 hmem).2
      unfold prodGrounded at hfil
      obtain ⟨a, ha, hcond⟩ := List.any_eq_true.1 hfil
      refine ⟨a, ha, ?_⟩
      simp only [Bool.and_eq_true] at hcond
      exact hcond.2
  · intro hall
    unfold extractProducts
    rw [if_pos hall]

/-- C2 witness: an explicit all-products request empties the filter. -/
theorem c2_products_grounded_witness :
    extractProducts "show all products" [5] = [] :=
  (c2_products_grounded "show all products" [5]).2 (by rfl)

/-! ## Claim C3: schema / PII validation of dimensions and filter columns -/

/-- C3, counterexample.  `contact_person_name` has `pii_level = "high"`,
yet a filter keyed on it is emitted into the SQL: `_validate_filter_column`
checks only categorical-ness, and the fallback admits any schema column,
with no PII check on the filter path. -/
theorem c3_pii_counterexample :
    piiLevel "contact_person_name" = "high" ∧
    (build_sql { filters := [("contact_person_name", .l ["John"])] } []).sql =
      some ("SELECT COUNT(*) as leads FROM sme_analytics.sme_leadbookingrevenue" ++
        " WHERE (contact_person_name IN ('John'))") := by
  exact ⟨rfl, rfl⟩

/-- C3, amended: a column is used as a GROUP BY dimension only if it exists
in the schema registry with `pii_level ≠ "high"`; but a categorical-filter
column is emitted whenever the column merely exists in the schema — its PII
level is not checked, so a filter on the high-PII `contact_person_name`
does reach the SQL. -/
theorem c3_pii_amended (e : Entities) (col : String) (fv : FVal) :
    (∀ d ∈ dimsUsed e, inSchema d = true ∧ piiLevel d ≠ "high") ∧
    (filterClause col fv ≠ none → inSchema col = true) := by
  constructor
  · intro d hd
    have hv := (List.mem_filter.1 hd).2
    unfold validate_dimension at hv
    simp only [Bool.and_eq_true, decide_eq_true_eq] at hv
    exact hv
  · intro hcl
    unfold filterClause at hcl
    by_cases hg : (!(validate_filter_column col) && !(inSchema col)) = true
    · rw [if_pos hg] at hcl
      exact absurd rfl hcl
    · simp only [Bool.and_eq_true, Bool.not_eq_true'] at hg
      rcases Decidable.not_and_iff_or_not.1 hg with hv | hs
      · have hvt : validate_filter_column col = true := by
          cases hx : validate_filter_column col with
          | true => rfl
          | false => exact absurd hx hv
        unfold validate_filter_column at hvt
        simp only [Bool.and_eq_true] at hvt
        exact hvt.1
      · cases hx : inSchema col with
        | true => rfl
        | false => exact absurd hx hs

/-- C3 witness: the amended theorem at the schema column `city`. -/
theorem c3_pii_amended_witness :
    inSchema "city" = true ∧ piiLevel "city" ≠ "high" := by
  have h := c3_pii_amended { dimensions := ["city"] } "city" (.l ["x"])
  exact ⟨h.2 (by decide), (h.1 "city" (by decide)).2⟩

theorem hasPart_appL {s x : String} (t : String) (h : hasPart s x) :
    hasPart (t ++ s) x := by
  obtain ⟨pre, post, hp⟩ := h
  exact ⟨t.data ++ pre, post, by simp [String.data_append, hp, List.append_assoc]⟩

theorem hasPart_appR {s x : String} (t : String) (h : hasPart s x) :
    hasPart (s ++ t) x := by
  obtain ⟨pre, post, hp⟩ := h
  exact ⟨pre, post ++ t.data, by simp [String.data_append, hp, List.append_assoc]⟩

theorem containsSub_of_hasPart {x s : String} (h : hasPart s x) :
    containsSub x s = true :=
  containsSub_of_parts x s h

/-- A SELECT part appears verbatim in the assembled SQL text. -/
theorem sqlOf_hasPart_sel (e : Entities) (gc : List String) (x : String)
    (hx : x ∈ (selGrp e).1) : hasPart (sqlOf e gc) x := by
  have hj : hasPart (joinSep ", " (selGrp e).1) x := joinSep_parts ", " _ x hx
  have hbase : hasPart (sqlBase e) x := by
    unfold sqlBase
    exact hasPart_appR _ (hasPart_appL _ hj)
  have hww : hasPart (sqlWithWhere e gc) x := by
    unfold sqlWithWhere
    split_ifs
    · exact hbase
    · exact hasPart_appR _ (hasPart_appR _ hbase)
  unfold sqlOf
  split_ifs
  · exact hww
  · exact hasPart_appR _ (hasPart_appR _ hww)

set_option maxRecDepth 40000 in
/-- C6, counterexample.  For Scenario D's input "revenue for ghi and wc
product wise" with the draft proposing ids 1 and 19, `extract` returns
`[1]`, not `{1, 19}`: the two-letter alias "wc" is skipped by the
`len(a) < 3` guard of the post-validation, so nothing grounds id 19. -/
theorem c6_wc_counterexample :
    extractProducts "revenue for ghi and wc product wise" [1, 19] = [1] ∧
    (19 : Int) ∉ ([1] : List Int) := by
  exact ⟨by decide, by decide⟩

/-- The CASE projection is the CASE group expression plus the alias (proved
by associativity, not by evaluating the large constant). -/
theorem productCaseSelect_eq :
    productCaseSelect = productCaseGroup ++ " AS product_name" := by
  unfold productCaseSelect productCaseGroup
  rw [String.append_assoc ("CASE " ++ caseWhens) " END" " AS product_name"]
  exact congrArg (fun t => ("CASE " ++ caseWhens) ++ t)
    (rfl : (" END AS product_name" : String) = " END" ++ " AS product_name")

set_option maxRecDepth 40000 in
/-- C6, amended.  For the input "revenue for ghi and wc product wise" and
every draft, the returned products never contain 19 ("wc", being shorter
than three characters, is skipped by the validation) and contain 1 exactly
when the draft proposed it; and whenever `investmenttypeid` is among the
validated dimensions of a record, the SQL contains the product-name
`CASE WHEN investmenttypeid = <id> THEN '<name>' … END` projection — with
arms for ids 1 and 19 — and the GROUP BY list carries the identical CASE
expression. -/
theorem c6_wc_amended (draft : List Int) (e : Entities) (gc : List String)
    (hdim : "investmenttypeid" ∈ dimsUsed e) :
    ((19 : Int) ∉ extractProducts "revenue for ghi and wc product wise" draft) ∧
    ((1 : Int) ∈ extractProducts "revenue for ghi and wc product wise" draft ↔
      (1 : Int) ∈ draft) ∧
    productCaseSelect ∈ (selGrp e).1 ∧ productCaseGroup ∈ (selGrp e).2 ∧
    productCaseSelect = productCaseGroup ++ " AS product_name" ∧
    containsSub "WHEN investmenttypeid = 1 THEN 'Group Health Insurance'"
      productCaseSelect = true ∧
    containsSub "WHEN investmenttypeid = 19 THEN 'Workmen Compensation'"
      productCaseSelect = true ∧
    containsSub productCaseSelect (sqlOf e gc) = true := by
  have hcond : (allProductsPhrases.any (fun ph =>
      containsSub ph (lcS "revenue for ghi and wc product wise"))) = false := by decide
  have hsel : productCaseSelect ∈ (selGrp e).1 ∧ productCaseGroup ∈ (selGrp e).2 := by
    unfold selGrp caseStep
    rw [if_pos (by simpa using hdim), if_pos (by decide)]
    constructor
    · exact List.mem_cons_of_mem _ (List.mem_cons_self _ _)
    · split_ifs with hin
      · exact List.mem_of_elem_eq_true hin
      · exact List.mem_append_right _ (List.mem_singleton_self _)
  refine ⟨?_, ?_, hsel.1, hsel.2, productCaseSelect_eq, by decide, by decide,
    containsSub_of_hasPart (sqlOf_hasPart_sel e gc _ hsel.1)⟩
  · intro h19
    unfold extractProducts at h19
    rw [if_neg (by simp [hcond])] at h19
    have := (List.mem_filter.1 ((mem_dedupSorted _ _).1 h19)).2
    rw [show prodGrounded "revenue for ghi and wc product wise" 19 = false
      from by decide] at this
    exact absurd this (by simp)
  · constructor
    · intro h1
      unfold extractProducts at h1
      rw [if_neg (by simp [hcond])] at h1
      exact (mem_dedupSorted _ _).1
        (List.mem_filter.1 ((mem_dedupSorted _ _).1 h1)).1
    · intro h1
      unfold extractProducts
      rw [if_neg (by simp [hcond])]
      refine (mem_dedupSorted _ _).2 (List.mem_filter.2
        ⟨(mem_dedupSorted _ _).2 h1, by decide⟩)

set_option maxRecDepth 40000 in
/-- C6 witness: the amended theorem at the draft `[1, 19]` and a record
grouping by `investmenttypeid`. -/
theorem c6_wc_amended_witness :
    (19 : Int) ∉ extractProducts "revenue for ghi and wc product wise" [1, 19] ∧
    (1 : Int) ∈ extractProducts "revenue for ghi and wc product wise" [1, 19] := by
  have h := c6_wc_amended [1, 19] { dimensions := ["investmenttypeid"] } [] (by decide)
  exact ⟨h.1, h.2.1.2 (by decide)⟩

theorem quoteOk_escL (l : List Char) : quoteOk (escL l) = true := by
  induction l with
  | nil => rfl
  | cons c rest ih =>
    by_cases hc : c = sqC
    · subst hc
      simp only [escL, List.map_cons, List.flatten_cons, escC, if_pos rfl]
      show quoteOk (sqC :: sqC :: escL rest) = true
      rw [quoteOk, if_pos rfl, if_pos rfl]
      exact ih
    · simp only [escL, List.map_cons, List.flatten_cons, escC, if_neg hc]
      show quoteOk (c :: escL rest) = true
      cases hel : escL rest with
      | nil => rw [quoteOk, if_neg hc]
      | cons d tl =>
        rw [quoteOk, if_neg hc]
        rw [hel] at ih
        exact ih

/-- Dropping a quote-free prefix preserves `quoteOk`. -/
theorem quoteOk_dropPrefix (a b : List Char) (ha : ∀ c ∈ a, c ≠ sqC)
    (h : quoteOk (a ++ b) = true) : quoteOk b = true := by
  induction a with
  | nil => simpa using h
  | cons c a' ih =>
    have hc : c ≠ sqC := ha c (by simp)
    refine ih (fun x hx => ha x (by simp [hx])) ?_
    rw [List.cons_append] at h
    cases hab : a' ++ b with
    | nil => rfl
    | cons d tl =>
      rw [hab] at h
      rw [quoteOk, if_neg hc] at h
      exact h

/-- A quote-free list is `quoteOk`. -/
theorem quoteOk_of_QF (a : List Char) (ha : ∀ c ∈ a, c ≠ sqC) :
    quoteOk a = true := by
  induction a with
  | nil => rfl
  | cons d a' ih =>
    have hd : d ≠ sqC := ha d (by simp)
    cases a' with
    | nil => rw [quoteOk, if_neg hd]
    | cons d2 tl =>
      rw [quoteOk, if_neg hd]
      exact ih (fun x hx => ha x (by simp [hx]))

/-- Dropping a quote-free suffix preserves `quoteOk`. -/
theorem quoteOk_dropSuffix (b a : List Char) (ha : ∀ c ∈ a, c ≠ sqC)
    (h : quoteOk (b ++ a) = true) : quoteOk b = true := by
  have H : ∀ n (b : List Char), b.length ≤ n → quoteOk (b ++ a) = true →
      quoteOk b = true := by
    intro n
    induction n with
    | zero =>
      intro b hb _
      rw [List.length_eq_zero.1 (Nat.le_zero.1 hb)]
      rfl
    | succ n ihn =>
      intro b hb hq
      cases b with
      | nil => rfl
      | cons c rest =>
        by_cases hc : c = sqC
        · subst hc
          cases rest with
          | nil =>
            exfalso
            cases a with
            | nil => simp [quoteOk] at hq
            | cons d a' =>
              have hd : d ≠ sqC := ha d (by simp)
              rw [List.cons_append, List.nil_append] at hq
              cases a' with
              | nil => rw [quoteOk, if_pos rfl, if_neg hd] at hq; simp at hq
              | cons d2 tl => rw [quoteOk, if_pos rfl, if_neg hd] at hq; simp at hq
          | cons c2 rest2 =>
            rw [List.cons_append, List.cons_append, quoteOk, if_pos rfl] at hq
            by_cases hc2 : c2 = sqC
            · rw [if_pos hc2] at hq
              subst hc2
              rw [quoteOk, if_pos rfl, if_pos rfl]
              have hlen : rest2.length ≤ n := by
                have := hb; simp only [List.length_cons] at this; omega
              exact ihn rest2 hlen hq
            · rw [if_neg hc2] at hq
              simp at hq
        · cases rest with
          | nil =>
            rw [quoteOk, if_neg hc]
          | cons c2 rest2 =>
            rw [List.cons_append, List.cons_append, quoteOk, if_neg hc,
              ← List.cons_append] at hq
            rw [quoteOk, if_neg hc]
            have hlen : (c2 :: rest2).length ≤ n := by
              have := hb; simp only [List.length_cons] at this ⊢; omega
            exact ihn (c2 :: rest2) hlen hq
  exact H b.length b (Nat.le_refl _) h

/-- Appending a quote-free list preserves `quoteOk`. -/
theorem quoteOk_appendRightQF (b a : List Char) (ha : ∀ c ∈ a, c ≠ sqC)
    (h : quoteOk b = true) : quoteOk (b ++ a) = true := by
  have H : ∀ n (b : List Char), b.length ≤ n → quoteOk b = true →
      quoteOk (b ++ a) = true := by
    intro n
    induction n with
    | zero =>
      intro b hb _
      rw [List.length_eq_zero.1 (Nat.le_zero.1 hb)]
      exact quoteOk_of_QF a ha
    | succ n ihn =>
      intro b hb hq
      cases b with
      | nil => exact quoteOk_of_QF a ha
      | cons c rest =>
        by_cases hc : c = sqC
        · subst hc
          cases rest with
          | nil => simp [quoteOk] at hq
          | cons c2 rest2 =>
            by_cases hc2 : c2 = sqC
            · rw [quoteOk, if_pos rfl, if_pos hc2] at hq
              subst hc2
              rw [List.cons_append, List.cons_append, quoteOk, if_pos rfl, if_pos rfl]
              have hlen : rest2.length ≤ n := by
                have := hb; simp only [List.length_cons] at this; omega
              exact ihn rest2 hlen hq
            · rw [quoteOk, if_pos rfl, if_neg hc2] at hq
              simp at hq
        · cases rest with
          | nil =>
            rw [List.cons_append, List.nil_append]
            cases a with
            | nil => rw [quoteOk, if_neg hc]
            | cons d a' =>
              rw [quoteOk, if_neg hc]
              exact quoteOk_of_QF _ ha
          | cons c2 rest2 =>
            rw [quoteOk, if_neg hc] at hq
            rw [List.cons_append, List.cons_append, quoteOk, if_neg hc,
              ← List.cons_append]
            have hlen : (c2 :: rest2).length ≤ n := by
              have := hb; simp only [List.length_cons] at this ⊢; omega
            exact ihn (c2 :: rest2) hlen hq
  exact H b.length b (Nat.le_refl _) h

/-- A `quoteOk` body followed by a closing quote scans as a complete
literal: no quote inside the body closes it early. -/
theorem litScan_escaped (l : List Char) (h : quoteOk l = true) :
    litScan (l ++ [sqC]) = some [] := by
  have H : ∀ n (l : List Char), l.length ≤ n → quoteOk l = true →
      litScan (l ++ [sqC]) = some [] := by
    intro n
    induction n with
    | zero =>
      intro l hl _
      rw [List.length_eq_zero.1 (Nat.le_zero.1 hl)]
      rfl
    | succ n ihn =>
      intro l hl hq
      cases l with
      | nil => rfl
      | cons c rest =>
        by_cases hc : c = sqC
        · subst hc
          cases rest with
          | nil => simp [quoteOk] at hq
          | cons c2 rest2 =>
            by_cases hc2 : c2 = sqC
            · rw [quoteOk, if_pos rfl, if_pos hc2] at hq
              subst hc2
              rw [List.cons_append, List.cons_append, litScan, if_pos rfl, if_pos rfl]
              have hlen : rest2.length ≤ n := by
                have := hl; simp only [List.length_cons] at this; omega
              exact ihn rest2 hlen hq
            · rw [quoteOk, if_pos rfl, if_neg hc2] at hq
              simp at hq
        · cases rest with
          | nil =>
            rw [List.cons_append, List.nil_append, litScan, if_neg hc]
            rw [show litScan [sqC] = some [] from rfl]
          | cons c2 rest2 =>
            rw [quoteOk, if_neg hc] at hq
            rw [List.cons_append, List.cons_append, litScan, if_neg hc,
              ← List.cons_append]
            have hlen : (c2 :: rest2).length ≤ n := by
              have := hl; simp only [List.length_cons] at this ⊢; omega
            exact ihn (c2 :: rest2) hlen hq
  exact H l.length l (Nat.le_refl _) h

theorem isWs_ne_sq {c : Char} (h : isWs c = true) : c ≠ sqC := by
  simp only [isWs, Bool.or_eq_true, decide_eq_true_eq] at h
  rcases h with ((h | h) | h) | h <;> subst h <;> decide

theorem quoteOk_dropWhileWs (l : List Char) (h : quoteOk l = true) :
    quoteOk (l.dropWhile isWs) = true := by
  have hsplit := List.takeWhile_append_dropWhile isWs l
  refine quoteOk_dropPrefix (l.takeWhile isWs) (l.dropWhile isWs) ?_ ?_
  · intro c hc
    exact isWs_ne_sq (List.mem_takeWhile_imp hc)
  · rw [hsplit]; exact h

theorem quoteOk_trimL (l : List Char) (h : quoteOk l = true) :
    quoteOk (trimL l) = true := quoteOk_dropWhileWs l h

theorem quoteOk_trimR (l : List Char) (h : quoteOk l = true) :
    quoteOk (trimR l) = true := by
  have hsplit : l = trimR l ++ (l.reverse.takeWhile isWs).reverse := by
    have h1 : l.reverse.takeWhile isWs ++ l.reverse.dropWhile isWs = l.reverse :=
      List.takeWhile_append_dropWhile isWs l.reverse
    calc l = l.reverse.reverse := (List.reverse_reverse l).symm
    _ = (l.reverse.takeWhile isWs ++ l.reverse.dropWhile isWs).reverse := by rw [h1]
    _ = (l.reverse.dropWhile isWs).reverse ++ (l.reverse.takeWhile isWs).reverse := by
          rw [List.reverse_append]
    _ = trimR l ++ (l.reverse.takeWhile isWs).reverse := rfl
  refine quoteOk_dropSuffix (trimR l) ((l.reverse.takeWhile isWs).reverse) ?_ ?_
  · intro c hc
    exact isWs_ne_sq (List.mem_takeWhile_imp (List.mem_reverse.1 hc))
  · rw [← hsplit]; exact h

theorem quoteOk_pyStrip (s : String) (h : quoteOk s.data = true) :
    quoteOk (pyStrip s).data = true :=
  quoteOk_trimR _ (quoteOk_trimL _ h)

/-- Destructuring a case-insensitive "not" prefix match. -/
theorem mPre_not_destruct (l : List Char) (h : mPre ciC "not".data l = true) :
    ∃ c1 c2 c3 rest, l = c1 :: c2 :: c3 :: rest ∧
      c1 ≠ sqC ∧ c2 ≠ sqC ∧ c3 ≠ sqC := by
  match l with
  | [] => simp [mPre] at h
  | [c1] => simp [mPre, String.data] at h
  | [c1, c2] => simp [mPre, String.data] at h
  | c1 :: c2 :: c3 :: rest =>
    refine ⟨c1, c2, c3, rest, rfl, ?_, ?_, ?_⟩ <;>
    · simp only [show ("not".data) = ['n', 'o', 't'] from rfl, mPre, ciC,
        Bool.and_eq_true, decide_eq_true_eq] at h
      intro hc
      first
        | (rw [hc] at h; exact absurd h.1 (by decide))
        | (rw [hc] at h; exact absurd h.2.1 (by decide))
        | (rw [hc] at h; exact absurd h.2.2.1 (by decide))

/-- Destructuring a two-symbol prefix match (`!=` or `<>`). -/
theorem mPre_sym_destruct (p1 p2 : Char)
    (l : List Char) (h : mPre eqC [p1, p2] l = true) :
    ∃ rest, l = p1 :: p2 :: rest := by
  match l with
  | [] => simp [mPre] at h
  | [c1] => simp [mPre] at h
  | c1 :: c2 :: rest =>
    simp only [mPre, eqC, Bool.and_eq_true, decide_eq_true_eq] at h
    exact ⟨rest, by rw [h.1, h.2.1]⟩

theorem quoteOk_stripNegRe (s : String) (h : quoteOk s.data = true) :
    quoteOk (stripNegRe s).data = true := by
  unfold stripNegRe
  by_cases h1 : mPre ciC "not".data s.data = true
  · rw [if_pos h1]
    obtain ⟨c1, c2, c3, rest, hl, hc1, hc2, hc3⟩ := mPre_not_destruct s.data h1
    show quoteOk ((s.data.drop 3).dropWhile isWs) = true
    refine quoteOk_dropWhileWs _ ?_
    rw [hl]
    rw [hl] at h
    refine quoteOk_dropPrefix [c1, c2, c3] rest ?_ h
    intro c hc
    simp only [List.mem_cons, List.not_mem_nil, or_false] at hc
    rcases hc with rfl | rfl | rfl
    exacts [hc1, hc2, hc3]
  · rw [if_neg h1]
    by_cases h2 : mPre eqC "!=".data s.data = true
    · rw [if_pos h2]
      obtain ⟨rest, hl⟩ := mPre_sym_destruct '!' '=' s.data (by simpa using h2)
      show quoteOk ((s.data.drop 2).dropWhile isWs) = true
      refine quoteOk_dropWhileWs _ ?_
      rw [hl]
      rw [hl] at h
      refine quoteOk_dropPrefix ['!', '='] rest ?_ h
      intro c hc
      simp only [List.mem_cons, List.not_mem_nil, or_false] at hc
      rcases hc with rfl | rfl <;> decide
    · rw [if_neg h2]
      by_cases h3 : mPre eqC "<>".data s.data = true
      · rw [if_pos h3]
        obtain ⟨rest, hl⟩ := mPre_sym_destruct '<' '>' s.data (by simpa using h3)
        show quoteOk ((s.data.drop 2).dropWhile isWs) = true
        refine quoteOk_dropWhileWs _ ?_
        rw [hl]
        rw [hl] at h
        refine quoteOk_dropPrefix ['<', '>'] rest ?_ h
        intro c hc
        simp only [List.mem_cons, List.not_mem_nil, or_false] at hc
        rcases hc with rfl | rfl <;> decide
      · rw [if_neg h3]
        exact h

/-- Prepending a quote-free list preserves `quoteOk`. -/
theorem quoteOk_appendLeftQF (a b : List Char) (ha : ∀ c ∈ a, c ≠ sqC)
    (h : quoteOk b = true) : quoteOk (a ++ b) = true := by
  induction a with
  | nil => simpa using h
  | cons c a' ih =>
    have hc : c ≠ sqC := ha c (by simp)
    have hrest := ih (fun x hx => ha x (by simp [hx]))
    rw [List.cons_append]
    cases hab : a' ++ b with
    | nil => rw [quoteOk, if_neg hc]
    | cons d tl =>
      rw [quoteOk, if_neg hc]
      rw [hab] at hrest
      exact hrest

/-- C10: quote escaping keeps every embedded value inside its literal.
`build_sql` places exactly three kinds of value-derived text between the
quotes of a SQL string literal: the processed filter value
`valPartOf (escSq v)` (`clauseFromList`, emitted as `'…'`), the lowered and
escaped fuzzy value wrapped in `%%` (`fuzzyClause`, emitted as
`'%%…%%'`), and the escaped product name `escSq name` (`caseWhens`,
emitted as `'…'`).  In each, every single quote of the original value has
been doubled (`escSq`), all quote runs stay even (`quoteOk`), and the
SQL-literal scanner started after the opening quote consumes the whole
content and closes exactly at the appended final quote — so no value can
close the literal it is embedded in. -/
theorem c10_literal_escaping (v fv name : String) :
    quoteOk (valPartOf (escSq v)).data = true ∧
    litScan ((valPartOf (escSq v)).data ++ [sqC]) = some [] ∧
    litScan (("%%" ++ escSq (lcS fv) ++ "%%").data ++ [sqC]) = some [] ∧
    litScan ((escSq name).data ++ [sqC]) = some [] := by
  have hesc : ∀ s : String, quoteOk (escSq s).data = true := by
    intro s
    show quoteOk (escL s.data) = true
    exact quoteOk_escL s.data
  have h1 : quoteOk (valPartOf (escSq v)).data = true :=
    quoteOk_pyStrip _ (quoteOk_stripNegRe _ (quoteOk_pyStrip _ (hesc v)))
  have h3 : quoteOk (("%%" ++ escSq (lcS fv) ++ "%%")).data = true := by
    rw [String.data_append, String.data_append]
    refine quoteOk_appendRightQF _ _ ?_
      (quoteOk_appendLeftQF _ _ ?_ (hesc (lcS fv)))
    · intro c hc
      simp only [show ("%%" : String).data = ['%', '%'] from rfl, List.mem_cons,
        List.not_mem_nil, or_false] at hc
      rcases hc with rfl | rfl <;> decide
    · intro c hc
      simp only [show ("%%" : String).data = ['%', '%'] from rfl, List.mem_cons,
        List.not_mem_nil, or_false] at hc
      rcases hc with rfl | rfl <;> decide
  exact ⟨h1, litScan_escaped _ h1, litScan_escaped _ h3, litScan_escaped _ (hesc name)⟩

theorem build_time_where_sub (tk : Option String) (dc : String) (frag : String)
    (h : frag ∈ build_time_where tk dc) : frag ∈ timeFragsFor dc := by
  unfold build_time_where at h
  match tk with
  | none => cases h
  | some t =>
    simp only at h
    by_cases ht : t = ""
    · rw [if_pos ht] at h; cases h
    · rw [if_neg ht] at h
      cases hl : lookupA TIME_PATTERNS t with
      | none => rw [hl] at h; cases h
      | some pattern =>
        rw [hl] at h
        rcases List.mem_singleton.1 h with rfl
        exact List.mem_map.2 ⟨(t, pattern), lookupA_mem _ _ _ hl, rfl⟩

theorem dateColumn_cases (e : Entities) :
    dateColumn e = "leaddate" ∨ dateColumn e = "bookingdate" := by
  unfold dateColumn
  split_ifs <;> simp

set_option maxRecDepth 40000 in
theorem timeFrags_ok :
    ((timeFragsFor "leaddate").all (fragOkFor "leaddate") &&
      (timeFragsFor "bookingdate").all (fragOkFor "bookingdate")) = true := by decide

theorem head?_append (a b : List Char) (h : a ≠ []) : (a ++ b).head? = a.head? := by
  cases a with
  | nil => exact absurd rfl h
  | cons c rest => rfl

theorem startsWith_append (p x : String) : startsWith p (p ++ x) = true := by
  unfold startsWith
  rw [String.data_append]
  exact mPre_mono eqC p.data p.data x.data (mPre_self p.data)

set_option maxRecDepth 40000 in
theorem schema_cols_ok : TABLE_SCHEMA.all (fun kv => colOkB kv.1) = true := by decide

theorem colOk_of_inSchema (col : String) (h : inSchema col = true) :
    colOkB col = true := by
  obtain ⟨m, hm⟩ := inSchema_mem col h
  have := List.all_eq_true.1 schema_cols_ok (col, m) hm
  simpa using this

/-- The shape of the clause a filter entry contributes: an OR-group in
parentheses, or an IS (NOT) NULL clause over a schema column. -/
theorem filterClause_shape (col : String) (fv : FVal) (c : String)
    (h : filterClause col fv = some c) :
    inSchema col = true ∧
      ((∃ j : String, c = "(" ++ j ++ ")") ∨
        c = col ++ " IS NOT NULL" ∨ c = col ++ " IS NULL") := by
  have horg : ∀ (l : List String) c', orGroup l = some c' →
      ∃ j : String, c' = "(" ++ j ++ ")" := by
    intro l c' hc
    unfold orGroup at hc
    by_cases hl : l = []
    · rw [if_pos hl] at hc; cases hc
    · rw [if_neg hl] at hc
      injection hc with hc
      exact ⟨_, hc.symm⟩
  have hclause : ∀ values c', clauseFromList col values = some c' →
      ∃ j : String, c' = "(" ++ j ++ ")" := by
    intro values c' hc
    simp only [clauseFromList] at hc
    by_cases he : (values.map escSq).isEmpty = true
    · rw [if_pos he] at hc; cases hc
    · rw [if_neg he] at hc
      exact horg _ _ hc
  unfold filterClause at h
  by_cases hg : (!(validate_filter_column col) && !(inSchema col)) = true
  · rw [if_pos hg] at h; cases h
  · rw [if_neg hg] at h
    have hin : inSchema col = true := by
      simp only [Bool.and_eq_true, Bool.not_eq_true'] at hg
      rcases Decidable.not_and_iff_or_not.1 hg with hv | hs
      · have hvt : validate_filter_column col = true := by
          cases hx : validate_filter_column col with
          | true => rfl
          | false => exact absurd hx hv
        unfold validate_filter_column at hvt
        simp only [Bool.and_eq_true] at hvt
        exact hvt.1
      · cases hx : inSchema col with
        | true => rfl
        | false => exact absurd hx hs
    refine ⟨hin, ?_⟩
    match fv with
    | .s v =>
      simp only at h
      by_cases h1 : valIsNotNull v = true
      · rw [if_pos h1] at h
        injection h with h2
        exact Or.inr (Or.inl h2.symm)
      · rw [if_neg (by simpa using h1)] at h
        by_cases h2 : valIsNull v = true
        · rw [if_pos h2] at h
          injection h with h3
          exact Or.inr (Or.inr h3.symm)
        · rw [if_neg (by simpa using h2)] at h
          exact Or.inl (hclause _ _ h)
    | .l vs =>
      simp only at h
      exact Or.inl (hclause _ _ h)

theorem head?_of_prefixed (p x y : String) (hp : p.data ≠ []) :
    ((p ++ x ++ y).data).head? = p.data.head? := by
  rw [String.data_append, String.data_append, head?_append _ _ (by simp [hp]),
    head?_append _ _ hp]

/-- Every clause the fuzzy fallback contributes is a `( … )` group. -/
theorem fuzzyClause_shape (e : Entities) (gc : List String) (frag : String)
    (h : frag ∈ fuzzyClause e gc) : ∃ j : String, frag = "( " ++ j ++ " )" := by
  unfold fuzzyClause at h
  cases hfv : e.fuzzy_value with
  | none => rw [hfv] at h; cases h
  | some fv =>
    rw [hfv] at h
    simp only at h
    split_ifs at h <;>
      first
        | (rcases List.mem_singleton.1 h with rfl; exact ⟨_, rfl⟩)
        | cases h

set_option maxRecDepth 40000 in
/-- C7: when an intent record carries both an explicit `start_date`/`end_date`
pair (truthy, as the code requires) and a named `time.key`, the WHERE
clause list contains the two explicit range clauses and does not contain
the named time-pattern fragment for that key — the explicit range wins. -/
theorem c7_time_precedence (e : Entities) (gc : List String) (sd ed tk : String)
    (hsd : e.time.start_date = some sd) (hed : e.time.end_date = some ed)
    (hsd2 : sd ≠ "") (hed2 : ed ≠ "") (_htk : e.time.key = some tk) :
    ("DATE(" ++ dateColumn e ++ ") >= DATE '" ++ sd ++ "'") ∈ whereClauses e gc ∧
    ("DATE(" ++ dateColumn e ++ ") <= DATE '" ++ ed ++ "'") ∈ whereClauses e gc ∧
    ∀ frag ∈ build_time_where e.time.key (dateColumn e), frag ∉ whereClauses e gc := by
  have htc : timeClause e =
      ["DATE(" ++ dateColumn e ++ ") >= DATE '" ++ sd ++ "'",
       "DATE(" ++ dateColumn e ++ ") <= DATE '" ++ ed ++ "'"] := by
    unfold timeClause
    rw [hsd, hed]
    simp only [if_pos (And.intro hsd2 hed2)]
  have hwc : whereClauses e gc = productClause e ++ timeClause e ++ flagClause e
      ++ e.filters.filterMap (fun kv => filterClause kv.1 kv.2)
      ++ fuzzyClause e gc := rfl
  have hfragsOk : ∀ f ∈ timeFragsFor (dateColumn e),
      fragOkFor (dateColumn e) f = true := by
    have hboth := timeFrags_ok
    simp only [Bool.and_eq_true] at hboth
    rcases dateColumn_cases e with h | h <;> rw [h] <;> intro f hf
    · exact List.all_eq_true.1 hboth.1 f hf
    · exact List.all_eq_true.1 hboth.2 f hf
  refine ⟨?_, ?_, ?_⟩
  · rw [hwc]
    exact List.mem_append_left _ (List.mem_append_left _ (List.mem_append_left _
      (List.mem_append_right _ (by rw [htc]; exact List.mem_cons_self _ _))))
  · rw [hwc]
    exact List.mem_append_left _ (List.mem_append_left _ (List.mem_append_left _
      (List.mem_append_right _ (by rw [htc]; simp))))
  · intro frag hfrag hmem
    have hok := hfragsOk frag (build_time_where_sub _ _ _ hfrag)
    unfold fragOkFor at hok
    simp only [Bool.and_eq_true, Bool.not_eq_true', decide_eq_false_iff_not,
      decide_eq_true_eq] at hok
    obtain ⟨⟨⟨⟨⟨hnI, hnP⟩, hpar⟩, hne300⟩, hnsw1⟩, hnsw2⟩ := hok
    rw [hwc] at hmem
    rcases List.mem_append.1 hmem with h4 | hfz
    · rcases List.mem_append.1 h4 with h3 | hfm
      · rcases List.mem_append.1 h3 with h2 | hfc
        · rcases List.mem_append.1 h2 with hpc | htcm
          · -- product filter clause: starts with 'i'
            unfold productClause at hpc
            split_ifs at hpc
            · cases hpc
            · rcases List.mem_singleton.1 hpc with rfl
              exact hnI (by
                rw [head?_of_prefixed "investmenttypeid IN ("
                  (joinSep ", " (e.products.map intStr)) ")" (by decide)]
                rfl)
          · -- the two explicit range clauses: excluded by the prefix facts
            rw [htc] at htcm
            rcases List.mem_cons.1 htcm with rfl | htcm2
            · have hsw : startsWith ("DATE(" ++ dateColumn e ++ ") >= DATE '")
                  ("DATE(" ++ dateColumn e ++ ") >= DATE '" ++ sd ++ "'") = true := by
                have h0 := startsWith_append
                  ("DATE(" ++ dateColumn e ++ ") >= DATE '") (sd ++ "'")
                rw [← String.append_assoc
                  ("DATE(" ++ dateColumn e ++ ") >= DATE '") sd "'"] at h0
                exact h0
              rw [hnsw1] at hsw
              cases hsw
            · rcases List.mem_singleton.1 htcm2 with rfl
              have hsw : startsWith ("DATE(" ++ dateColumn e ++ ") <= DATE '")
                  ("DATE(" ++ dateColumn e ++ ") <= DATE '" ++ ed ++ "'") = true := by
                have h0 := startsWith_append
                  ("DATE(" ++ dateColumn e ++ ") <= DATE '") (ed ++ "'")
                rw [← String.append_assoc
                  ("DATE(" ++ dateColumn e ++ ") <= DATE '") ed "'"] at h0
                exact h0
              rw [hnsw2] at hsw
              cases hsw
        · -- flag clause
          unfold flagClause at hfc
          split_ifs at hfc
          · rcases List.mem_singleton.1 hfc with rfl
            exact hne300 rfl
          · cases hfc
      · -- categorical filter clauses
        obtain ⟨kv, _, hcl⟩ := List.mem_filterMap.1 hfm
        obtain ⟨hin, hshape⟩ := filterClause_shape kv.1 kv.2 frag hcl
        have hcolOk := colOk_of_inSchema kv.1 hin
        unfold colOkB at hcolOk
        simp only [Bool.and_eq_true, Bool.not_eq_true', decide_eq_false_iff_not] at hcolOk
        rcases hshape with ⟨j, rfl⟩ | rfl | rfl
        · exact hnP (by rw [head?_of_prefixed "(" j ")" (by decide)]; rfl)
        · have hmemp : '(' ∈ (kv.1 ++ " IS NOT NULL").data := List.mem_of_elem_eq_true hpar
          rw [String.data_append] at hmemp
          rcases List.mem_append.1 hmemp with hc | hc
          · have hx : kv.1.data.contains '(' = true := List.elem_eq_true_of_mem hc
            rw [hcolOk.2] at hx
            exact absurd hx (by simp)
          · exact absurd hc (by decide)
        · have hmemp : '(' ∈ (kv.1 ++ " IS NULL").data := List.mem_of_elem_eq_true hpar
          rw [String.data_append] at hmemp
          rcases List.mem_append.1 hmemp with hc | hc
          · have hx : kv.1.data.contains '(' = true := List.elem_eq_true_of_mem hc
            rw [hcolOk.2] at hx
            exact absurd hx (by simp)
          · exact absurd hc (by decide)
    · -- fuzzy clause
      obtain ⟨j, rfl⟩ := fuzzyClause_shape e gc frag hfz
      exact hnP (by rw [head?_of_prefixed "( " j " )" (by decide)]; rfl)

set_option maxRecDepth 40000 in
/-- C7 witness: a record with both an explicit range and `key = "this month"`. -/
theorem c7_time_precedence_witness :
    ("DATE(leaddate) >= DATE '2025-01-01'" ∈
      whereClauses { time := c7Time } []) ∧
    ("leaddate >= DATE_TRUNC('month', CURRENT_DATE)" ∉
      whereClauses { time := c7Time } []) := by
  have h := c7_time_precedence { time := c7Time } []
    "2025-01-01" "2025-03-31" "this month" rfl rfl (by decide) (by decide) rfl
  exact ⟨h.1, h.2.2 "leaddate >= DATE_TRUNC('month', CURRENT_DATE)" (by decide)⟩

theorem sqlWords_wf : wordsWfB sqlWords = true := by decide

theorem wordsFree_append (ws : List String) (hwf : wordsWfB ws = true)
    (a b : String) (ha : wordsFreeB ws a = true) (hb : wordsFreeB ws b = true)
    (hbd : lastNL a = true ∨ headNL b = true) :
    wordsFreeB ws (a ++ b) = true := by
  rw [wordsFreeB, List.all_eq_true]
  intro w hw
  have hwwf := List.all_eq_true.1 hwf w hw
  simp only [Bool.and_eq_true, Bool.not_eq_true', List.isEmpty_eq_false_iff_exists_mem,
    List.all_eq_true] at hwwf
  have hwa := List.all_eq_true.1 ha w hw
  have hwb := List.all_eq_true.1 hb w hw
  simp only [Bool.not_eq_true'] at hwa hwb
  simp only [Bool.not_eq_true']
  show containsCI w (a ++ b) = false
  unfold containsCI at hwa hwb ⊢
  rw [String.data_append]
  refine kwFree_append w.data a.data b.data hwwf.2 hwa hwb ?_
  rcases hbd with h | h
  · unfold lastNL at h
    cases hx : a.data.getLast? with
    | none => right; right; left; exact List.getLast?_eq_none_iff.1 hx
    | some x =>
      rw [hx] at h
      simp only [Bool.not_eq_true'] at h
      exact Or.inl ⟨x, rfl, h⟩
  · unfold headNL at h
    cases hx : b.data.head? with
    | none => right; right; right; exact List.head?_eq_none_iff.1 hx
    | some x =>
      rw [hx] at h
      simp only [Bool.not_eq_true'] at h
      exact Or.inr (Or.inl ⟨x, rfl, h⟩)

theorem wordsFree_subset (ws ws' : List String) (hsub : ∀ w ∈ ws', w ∈ ws)
    (s : String) (h : wordsFreeB ws s = true) : wordsFreeB ws' s = true := by
  rw [wordsFreeB, List.all_eq_true]
  intro w hw
  exact List.all_eq_true.1 h w (hsub w hw)

theorem wordsFree_empty (ws : List String) (hwf : wordsWfB ws = true) :
    wordsFreeB ws "" = true := by
  rw [wordsFreeB, List.all_eq_true]
  intro w hw
  have hwwf := List.all_eq_true.1 hwf w hw
  simp only [Bool.and_eq_true, Bool.not_eq_true'] at hwwf
  simp only [Bool.not_eq_true']
  show containsCI w "" = false
  unfold containsCI
  cases hd : w.data with
  | nil => rw [hd] at hwwf; exact absurd hwwf.1 (by simp [List.isEmpty])
  | cons c rest => simp [mInf, mPre, hd]

/-- A string of non-letters is free of any lowercase-letter word list. -/
theorem wordsFree_of_nonletters (ws : List String) (hwf : wordsWfB ws = true)
    (s : String) (hs : ∀ c ∈ s.data, isLetter c = false) :
    wordsFreeB ws s = true := by
  rw [wordsFreeB, List.all_eq_true]
  intro w hw
  have hwwf := List.all_eq_true.1 hwf w hw
  simp only [Bool.and_eq_true, Bool.not_eq_true', List.all_eq_true] at hwwf
  simp only [Bool.not_eq_true']
  show containsCI w s = false
  unfold containsCI
  refine kwFree_of_nonletters w.data s.data ?_ hwwf.2 hs
  intro hnil
  rw [hnil] at hwwf
  exact absurd hwwf.1 (by simp [List.isEmpty])

theorem getLast?_append_right (a b : List Char) (hb : b ≠ []) :
    (a ++ b).getLast? = b.getLast? := by
  induction a with
  | nil => rfl
  | cons c rest ih =>
    rw [List.cons_append, List.getLast?_cons, ih]
    cases b with
    | nil => exact absurd rfl hb
    | cons d tl =>
      cases hr : rest ++ d :: tl with
      | nil => exact absurd hr (by simp)
      | cons e tl2 => simp [List.getLast?_cons]

theorem lastNL_append (a b : String) (hb : b.data ≠ []) :
    lastNL (a ++ b) = lastNL b := by
  unfold lastNL
  rw [String.data_append, getLast?_append_right _ _ hb]

theorem headNL_append (a b : String) (ha : a.data ≠ []) :
    headNL (a ++ b) = headNL a := by
  unfold headNL
  rw [String.data_append, head?_append _ _ ha]

/-- Joining words-free pieces with a words-free separator that has safe
boundaries on both sides stays words-free. -/
theorem wordsFree_joinSep (ws : List String) (hwf : wordsWfB ws = true)
    (sep : String) (hsep : wordsFreeB ws sep = true) (hsepne : sep.data ≠ [])
    (hsh : headNL sep = true) (hsl : lastNL sep = true)
    (l : List String) (hl : ∀ x ∈ l, wordsFreeB ws x = true) :
    wordsFreeB ws (joinSep sep l) = true := by
  induction l with
  | nil => exact wordsFree_empty ws hwf
  | cons x ys ih =>
    cases ys with
    | nil => exact hl x (by simp)
    | cons y zs =>
      show wordsFreeB ws (x ++ sep ++ joinSep sep (y :: zs)) = true
      refine wordsFree_append ws hwf (x ++ sep) _ ?_ ?_ ?_
      · exact wordsFree_append ws hwf x sep (hl x (by simp)) hsep (Or.inr hsh)
      · exact ih (fun z hz => hl z (by simp [hz]))
      · left
        rw [lastNL_append x sep hsepne]
        exact hsl

theorem trimL_parts (l : List Char) : ∃ pre, l = pre ++ trimL l :=
  ⟨l.takeWhile isWs, (List.takeWhile_append_dropWhile isWs l).symm⟩

theorem trimR_parts (l : List Char) : ∃ post, l = trimR l ++ post := by
  refine ⟨(l.reverse.takeWhile isWs).reverse, ?_⟩
  unfold trimR
  rw [← List.reverse_append, List.takeWhile_append_dropWhile, List.reverse_reverse]

theorem pyStrip_parts (s : String) : ∃ pre post, s.data = pre ++ (pyStrip s).data ++ post := by
  obtain ⟨pre, hpre⟩ := trimL_parts s.data
  obtain ⟨post, hpost⟩ := trimR_parts (trimL s.data)
  refine ⟨pre, post, ?_⟩
  show s.data = pre ++ trimR (trimL s.data) ++ post
  rw [List.append_assoc, ← hpost, ← hpre]

theorem stripNegRe_parts (s : String) : ∃ pre, s.data = pre ++ (stripNegRe s).data := by
  unfold stripNegRe
  simp only
  by_cases h1 : mPre ciC "not".data s.data = true
  · rw [if_pos h1]
    refine ⟨s.data.take 3 ++ (s.data.drop 3).takeWhile isWs, ?_⟩
    show s.data = s.data.take 3 ++ (s.data.drop 3).takeWhile isWs ++ (s.data.drop 3).dropWhile isWs
    rw [List.append_assoc, List.takeWhile_append_dropWhile, List.take_append_drop]
  · rw [if_neg h1]
    by_cases h2 : mPre eqC "!=".data s.data = true
    · rw [if_pos h2]
      refine ⟨s.data.take 2 ++ (s.data.drop 2).takeWhile isWs, ?_⟩
      show s.data = s.data.take 2 ++ (s.data.drop 2).takeWhile isWs ++ (s.data.drop 2).dropWhile isWs
      rw [List.append_assoc, List.takeWhile_append_dropWhile, List.take_append_drop]
    · rw [if_neg h2]
      by_cases h3 : mPre eqC "<>".data s.data = true
      · rw [if_pos h3]
        refine ⟨s.data.take 2 ++ (s.data.drop 2).takeWhile isWs, ?_⟩
        show s.data = s.data.take 2 ++ (s.data.drop 2).takeWhile isWs ++ (s.data.drop 2).dropWhile isWs
        rw [List.append_assoc, List.takeWhile_append_dropWhile, List.take_append_drop]
      · rw [if_neg h3]
        exact ⟨[], rfl⟩

/-- A words-free string stays words-free on any infix part of it. -/
theorem wordsFree_of_parts (ws : List String) (t s : String)
    (hparts : ∃ pre post, s.data = pre ++ t.data ++ post)
    (hs : wordsFreeB ws s = true) : wordsFreeB ws t = true := by
  obtain ⟨pre, post, hsp⟩ := hparts
  rw [wordsFreeB, List.all_eq_true]
  intro w hw
  have hws := List.all_eq_true.1 hs w hw
  simp only [Bool.not_eq_true'] at hws ⊢
  show containsCI w t = false
  unfold containsCI at hws ⊢
  cases h : mInf ciC w.data t.data with
  | false => rfl
  | true =>
    have h2 := mInf_of_parts ciC w.data pre t.data post h
    rw [← hsp, hws] at h2
    cases h2

theorem wordsFree_pyStrip (ws : List String) (s : String)
    (hs : wordsFreeB ws s = true) : wordsFreeB ws (pyStrip s) = true :=
  wordsFree_of_parts ws (pyStrip s) s (pyStrip_parts s) hs

theorem wordsFree_stripNegRe (ws : List String) (s : String)
    (hs : wordsFreeB ws s = true) : wordsFreeB ws (stripNegRe s) = true := by
  obtain ⟨pre, hp⟩ := stripNegRe_parts s
  exact wordsFree_of_parts ws (stripNegRe s) s ⟨pre, [], by simpa using hp⟩ hs

theorem wordsFree_escSq (ws : List String) (hwf : wordsWfB ws = true) (v : String)
    (hv : wordsFreeB ws v = true) : wordsFreeB ws (escSq v) = true := by
  rw [wordsFreeB, List.all_eq_true]
  intro w hw
  have hwv := List.all_eq_true.1 hv w hw
  have hwwf := List.all_eq_true.1 hwf w hw
  simp only [Bool.and_eq_true, Bool.not_eq_true', List.all_eq_true] at hwwf
  simp only [Bool.not_eq_true'] at hwv ⊢
  show containsCI w (escSq v) = false
  unfold containsCI at hwv ⊢
  cases h : mInf ciC w.data (escSq v).data with
  | false => rfl
  | true =>
    have h2 := mInf_escL w.data hwwf.2 v.data h
    rw [hwv] at h2
    cases h2

theorem wordsFree_lcS (ws : List String) (v : String)
    (hv : wordsFreeB ws v = true) : wordsFreeB ws (lcS v) = true := by
  rw [wordsFreeB, List.all_eq_true]
  intro w hw
  have hwv := List.all_eq_true.1 hv w hw
  simp only [Bool.not_eq_true'] at hwv ⊢
  show containsCI w (lcS v) = false
  unfold containsCI at hwv ⊢
  show mInf ciC w.data (v.data.map lcC) = false
  rw [mInf_map_lcC]
  exact hwv

/-- The `val_part` computed from an escaped benign value is still benign. -/
theorem wordsFree_valPart (ws : List String) (hwf : wordsWfB ws = true) (v : String)
    (hv : wordsFreeB ws v = true) : wordsFreeB ws (valPartOf (escSq v)) = true := by
  unfold valPartOf
  exact wordsFree_pyStrip ws _ (wordsFree_stripNegRe ws _
    (wordsFree_pyStrip ws _ (wordsFree_escSq ws hwf v hv)))

set_option maxRecDepth 40000 in
theorem schema_cols_free : TABLE_SCHEMA.all (fun kv => wordsFreeB sqlWords kv.1) = true := by
  decide

set_option maxRecDepth 40000 in
theorem patterns_free :
    SQL_PATTERNS.all (fun kv => wordsFreeB sqlWords kv.2 && !(kv.2 = "")) = true := by decide

set_option maxRecDepth 40000 in
theorem timeFrags_free :
    ((timeFragsFor "leaddate").all
        (fun f => wordsFreeB sqlWords f && !(f = "") && !(f.data.getLast? = some ';')) &&
      (timeFragsFor "bookingdate").all
        (fun f => wordsFreeB sqlWords f && !(f = "") && !(f.data.getLast? = some ';'))) = true := by
  decide

set_option maxRecDepth 40000 in
theorem caseWhens_free : wordsFreeB sqlWords caseWhens = true := by decide

theorem mutKeywords_wf : wordsWfB mutKeywords = true := by decide

theorem mutKeywords_sub : ∀ w ∈ mutKeywords, w ∈ sqlWords := by decide

theorem fromWord_wf : wordsWfB ["from"] = true := by decide

theorem fromWord_sub : ∀ w ∈ ["from"], w ∈ sqlWords := by decide

theorem clsOf_mem (values : List String) (trip : Bool × String × Bool)
    (h : trip ∈ clsOf values) : ∃ v ∈ values, trip.2.1 = valPartOf (escSq v) := by
  unfold clsOf at h
  obtain ⟨v, hv, heq⟩ := List.mem_map.1 h
  have hv2 := List.mem_of_mem_filter hv
  obtain ⟨v0, hv0, rfl⟩ := List.mem_map.1 hv2
  exact ⟨v0, hv0, by rw [← heq]⟩

theorem mem_numericValsOf (values : List String) (x : String)
    (h : x ∈ numericValsOf values) : ∃ v ∈ values, x = valPartOf (escSq v) := by
  unfold numericValsOf at h
  obtain ⟨trip, htrip, hf⟩ := List.mem_filterMap.1 h
  change (if !trip.1 && trip.2.2 then some trip.2.1 else none) = some x at hf
  by_cases hc : (!trip.1 && trip.2.2) = true
  · rw [if_pos hc] at hf
    injection hf with hf
    obtain ⟨v, hv, he⟩ := clsOf_mem values trip htrip
    exact ⟨v, hv, by rw [← hf, he]⟩
  · rw [if_neg hc] at hf; cases hf

theorem mem_notNumericValsOf (values : List String) (x : String)
    (h : x ∈ notNumericValsOf values) : ∃ v ∈ values, x = valPartOf (escSq v) := by
  unfold notNumericValsOf at h
  obtain ⟨trip, htrip, hf⟩ := List.mem_filterMap.1 h
  change (if trip.1 && trip.2.2 then some trip.2.1 else none) = some x at hf
  by_cases hc : (trip.1 && trip.2.2) = true
  · rw [if_pos hc] at hf
    injection hf with hf
    obtain ⟨v, hv, he⟩ := clsOf_mem values trip htrip
    exact ⟨v, hv, by rw [← hf, he]⟩
  · rw [if_neg hc] at hf; cases hf

theorem mem_stringValsOf (values : List String) (x : String)
    (h : x ∈ stringValsOf values) :
    ∃ v ∈ values, x = "'" ++ valPartOf (escSq v) ++ "'" := by
  unfold stringValsOf at h
  obtain ⟨trip, htrip, hf⟩ := List.mem_filterMap.1 h
  change (if !trip.1 && !trip.2.2 then some ("'" ++ trip.2.1 ++ "'") else none) = some x at hf
  by_cases hc : (!trip.1 && !trip.2.2) = true
  · rw [if_pos hc] at hf
    injection hf with hf
    obtain ⟨v, hv, he⟩ := clsOf_mem values trip htrip
    exact ⟨v, hv, by rw [← hf, he]⟩
  · rw [if_neg hc] at hf; cases hf

theorem mem_notStringValsOf (values : List String) (x : String)
    (h : x ∈ notStringValsOf values) :
    ∃ v ∈ values, x = "'" ++ valPartOf (escSq v) ++ "'" := by
  unfold notStringValsOf at h
  obtain ⟨trip, htrip, hf⟩ := List.mem_filterMap.1 h
  change (if trip.1 && !trip.2.2 then some ("'" ++ trip.2.1 ++ "'") else none) = some x at hf
  by_cases hc : (trip.1 && !trip.2.2) = true
  · rw [if_pos hc] at hf
    injection hf with hf
    obtain ⟨v, hv, he⟩ := clsOf_mem values trip htrip
    exact ⟨v, hv, by rw [← hf, he]⟩
  · rw [if_neg hc] at hf; cases hf

theorem unpack3 (a : Bool) (p q : Prop) [Decidable p] [Decidable q]
    (h : (a && !(decide p) && !(decide q)) = true) : a = true ∧ ¬p ∧ ¬q := by
  simp only [Bool.and_eq_true, Bool.not_eq_true'] at h
  exact ⟨h.1.1, of_decide_eq_false h.1.2, of_decide_eq_false h.2⟩

theorem digitChar_nonletter (m : Nat) (h : m < 10) : isLetter (Nat.digitChar m) = false := by
  interval_cases m <;> decide

theorem natDigsAux_nonletter (f n : Nat) : ∀ c ∈ natDigsAux f n, isLetter c = false := by
  induction f generalizing n with
  | zero => intro c hc; cases hc
  | succ f ih =>
    intro c hc
    cases n with
    | zero => cases hc
    | succ m =>
      have he : natDigsAux (f + 1) (m + 1)
          = natDigsAux f ((m + 1) / 10) ++ [Nat.digitChar ((m + 1) % 10)] := rfl
      rw [he] at hc
      rcases List.mem_append.1 hc with h2 | h2
      · exact ih _ c h2
      · rcases List.mem_singleton.1 h2 with rfl
        exact digitChar_nonletter _ (Nat.mod_lt _ (by decide))

theorem natStr_nonletter (n : Nat) : ∀ c ∈ (natStr n).data, isLetter c = false := by
  unfold natStr
  by_cases h : n = 0
  · rw [if_pos h]
    intro c hc
    change c ∈ ['0'] at hc
    rcases List.mem_singleton.1 hc with rfl
    decide
  · rw [if_neg h]
    exact natDigsAux_nonletter _ _

theorem intStr_nonletter (i : Int) : ∀ c ∈ (intStr i).data, isLetter c = false := by
  unfold intStr
  by_cases h : i < 0
  · rw [if_pos h]
    intro c hc
    rw [String.data_append] at hc
    rcases List.mem_append.1 hc with h2 | h2
    · change c ∈ ['-'] at h2
      rcases List.mem_singleton.1 h2 with rfl
      decide
    · exact natStr_nonletter _ c h2
  · rw [if_neg h]
    exact natStr_nonletter _

theorem wordsFree_intStr (ws : List String) (hwf : wordsWfB ws = true) (i : Int) :
    wordsFreeB ws (intStr i) = true :=
  wordsFree_of_nonletters ws hwf _ (intStr_nonletter i)

theorem append_ne_empty_right (a b : String) (hb : b.data ≠ []) : ¬(a ++ b = "") := by
  intro h
  have h2 : (a ++ b).data = [] := by rw [h]
  rw [String.data_append] at h2
  exact hb (List.append_eq_nil.1 h2).2

theorem getLast?_append_str (a b : String) (hb : b.data ≠ []) :
    (a ++ b).data.getLast? = b.data.getLast? := by
  rw [String.data_append]
  exact getLast?_append_right _ _ hb

theorem wordsFree_dateColumn (e : Entities) : wordsFreeB sqlWords (dateColumn e) = true := by
  rcases dateColumn_cases e with h | h <;> rw [h] <;> decide

/-- Both custom-range clause forms are benign (their text ends in a quote). -/
theorem rangeClause_facts (e : Entities) (op sd : String)
    (hop : op = ") >= DATE '" ∨ op = ") <= DATE '")
    (hsdf : wordsFreeB sqlWords sd = true) :
    wordsFreeB sqlWords ("DATE(" ++ dateColumn e ++ op ++ sd ++ "'") = true ∧
      ¬("DATE(" ++ dateColumn e ++ op ++ sd ++ "'" = "") ∧
      ¬(("DATE(" ++ dateColumn e ++ op ++ sd ++ "'" : String).data.getLast? = some ';') := by
  have hopf : wordsFreeB sqlWords op = true := by
    rcases hop with rfl | rfl <;> decide
  have hophead : headNL op = true := by
    rcases hop with rfl | rfl <;> decide
  have hoplast : lastNL op = true := by
    rcases hop with rfl | rfl <;> decide
  have hopne : op.data ≠ [] := by
    rcases hop with rfl | rfl <;> decide
  refine ⟨?_, append_ne_empty_right _ "'" (by decide), ?_⟩
  · have h1 : wordsFreeB sqlWords ("DATE(" ++ dateColumn e) = true :=
      wordsFree_append _ sqlWords_wf _ _ (by decide) (wordsFree_dateColumn e) (Or.inl (by decide))
    have h2 : wordsFreeB sqlWords ("DATE(" ++ dateColumn e ++ op) = true :=
      wordsFree_append _ sqlWords_wf _ _ h1 hopf (Or.inr hophead)
    have h3 : wordsFreeB sqlWords ("DATE(" ++ dateColumn e ++ op ++ sd) = true := by
      refine wordsFree_append _ sqlWords_wf _ _ h2 hsdf (Or.inl ?_)
      rw [show ("DATE(" ++ dateColumn e ++ op : String)
            = ("DATE(" ++ dateColumn e) ++ op from rfl]
      rw [lastNL_append _ op hopne]
      exact hoplast
    exact wordsFree_append _ sqlWords_wf _ "'" h3 (by decide) (Or.inr (by decide))
  · rw [getLast?_append_str _ "'" (by decide)]
    decide

theorem productClause_facts (e : Entities) : ∀ c ∈ productClause e,
    wordsFreeB sqlWords c = true ∧ ¬(c = "") ∧ ¬(c.data.getLast? = some ';') := by
  intro c hc
  unfold productClause at hc
  by_cases hp : e.products.isEmpty = true
  · rw [if_pos hp] at hc; cases hc
  · rw [if_neg hp] at hc
    rcases List.mem_singleton.1 hc with rfl
    refine ⟨?_, append_ne_empty_right _ ")" (by decide), ?_⟩
    · have hcsv : wordsFreeB sqlWords (joinSep ", " (e.products.map intStr)) = true := by
        refine wordsFree_joinSep sqlWords sqlWords_wf ", " (by decide) (by decide)
          (by decide) (by decide) _ ?_
        intro x hx
        obtain ⟨i, hi, rfl⟩ := List.mem_map.1 hx
        exact wordsFree_intStr sqlWords sqlWords_wf i
      refine wordsFree_append _ sqlWords_wf _ ")" ?_ (by decide) (Or.inr (by decide))
      exact wordsFree_append _ sqlWords_wf "investmenttypeid IN (" _ (by decide) hcsv
        (Or.inl (by decide))
    · rw [getLast?_append_str _ ")" (by decide)]
      decide

theorem flagClause_facts (e : Entities) : ∀ c ∈ flagClause e,
    wordsFreeB sqlWords c = true ∧ ¬(c = "") ∧ ¬(c.data.getLast? = some ';') := by
  intro c hc
  unfold flagClause at hc
  by_cases hf : e.online_only = true
  · rw [if_pos hf] at hc
    rcases List.mem_singleton.1 hc with rfl
    exact ⟨by decide, by decide, by decide⟩
  · rw [if_neg hf] at hc; cases hc

theorem timeClause_facts (e : Entities)
    (hsd : ∀ sd, e.time.start_date = some sd → wordsFreeB sqlWords sd = true)
    (hed : ∀ ed, e.time.end_date = some ed → wordsFreeB sqlWords ed = true) :
    ∀ c ∈ timeClause e,
      wordsFreeB sqlWords c = true ∧ ¬(c = "") ∧ ¬(c.data.getLast? = some ';') := by
  have hfrag : ∀ c, c ∈ build_time_where e.time.key (dateColumn e) →
      wordsFreeB sqlWords c = true ∧ ¬(c = "") ∧ ¬(c.data.getLast? = some ';') := by
    intro c hc2
    have hsub := build_time_where_sub _ _ _ hc2
    have hboth := timeFrags_free
    rw [Bool.and_eq_true] at hboth
    rcases dateColumn_cases e with hdc | hdc <;> rw [hdc] at hsub
    · exact unpack3 _ _ _ (List.all_eq_true.1 hboth.1 c hsub)
    · exact unpack3 _ _ _ (List.all_eq_true.1 hboth.2 c hsub)
  intro c hc
  unfold timeClause at hc
  cases hsd2 : e.time.start_date with
  | none =>
    rw [hsd2] at hc
    cases hed2 : e.time.end_date with
    | none => rw [hed2] at hc; exact hfrag c hc
    | some ed => rw [hed2] at hc; exact hfrag c hc
  | some sd =>
    rw [hsd2] at hc
    cases hed2 : e.time.end_date with
    | none => rw [hed2] at hc; exact hfrag c hc
    | some ed =>
      rw [hed2] at hc
      have hc2 : c ∈ (if sd ≠ "" ∧ ed ≠ "" then
          ["DATE(" ++ dateColumn e ++ ") >= DATE '" ++ sd ++ "'",
           "DATE(" ++ dateColumn e ++ ") <= DATE '" ++ ed ++ "'"]
        else build_time_where e.time.key (dateColumn e)) := hc
      by_cases hne : sd ≠ "" ∧ ed ≠ ""
      · rw [if_pos hne] at hc2
        rcases List.mem_cons.1 hc2 with rfl | hc3
        · exact rangeClause_facts e _ sd (Or.inl rfl) (hsd sd hsd2)
        · rcases List.mem_singleton.1 hc3 with rfl
          exact rangeClause_facts e _ ed (Or.inr rfl) (hed ed hed2)
      · rw [if_neg hne] at hc2
        exact hfrag c hc2

theorem wordsFree_col (col : String) (h : inSchema col = true) :
    wordsFreeB sqlWords col = true := by
  obtain ⟨m, hm⟩ := inSchema_mem col h
  simpa using List.all_eq_true.1 schema_cols_free (col, m) hm

/-- An `col IN (...)` / `col NOT IN (...)` group over benign parts. -/
theorem inGroup_free (col kw J : String)
    (hkw : kw = " IN (" ∨ kw = " NOT IN (")
    (hcolf : wordsFreeB sqlWords col = true)
    (hJ : wordsFreeB sqlWords J = true) :
    wordsFreeB sqlWords (col ++ kw ++ J ++ ")") = true := by
  have hkwf : wordsFreeB sqlWords kw = true := by rcases hkw with rfl | rfl <;> decide
  have hkwh : headNL kw = true := by rcases hkw with rfl | rfl <;> decide
  have hkwl : lastNL kw = true := by rcases hkw with rfl | rfl <;> decide
  have hkwne : kw.data ≠ [] := by rcases hkw with rfl | rfl <;> decide
  have h1 : wordsFreeB sqlWords (col ++ kw) = true :=
    wordsFree_append _ sqlWords_wf _ _ hcolf hkwf (Or.inr hkwh)
  have h2 : wordsFreeB sqlWords (col ++ kw ++ J) = true := by
    refine wordsFree_append _ sqlWords_wf _ _ h1 hJ (Or.inl ?_)
    rw [lastNL_append _ kw hkwne]
    exact hkwl
  exact wordsFree_append _ sqlWords_wf _ ")" h2 (by decide) (Or.inr (by decide))

/-- A quoted benign value part. -/
theorem quoted_free (x : String) (hx : wordsFreeB sqlWords x = true) :
    wordsFreeB sqlWords ("'" ++ x ++ "'") = true := by
  have h1 : wordsFreeB sqlWords ("'" ++ x) = true :=
    wordsFree_append _ sqlWords_wf _ _ (by decide) hx (Or.inl (by decide))
  exact wordsFree_append _ sqlWords_wf _ "'" h1 (by decide) (Or.inr (by decide))

theorem subsOf_free (col : String) (values : List String)
    (hcolf : wordsFreeB sqlWords col = true)
    (hv : ∀ v ∈ values, wordsFreeB sqlWords v = true) :
    ∀ s ∈ subsOf col values, wordsFreeB sqlWords s = true := by
  have hvp : ∀ x, (∃ v ∈ values, x = valPartOf (escSq v)) →
      wordsFreeB sqlWords x = true := by
    rintro x ⟨v, hvm, rfl⟩
    exact wordsFree_valPart sqlWords sqlWords_wf v (hv v hvm)
  have hvq : ∀ x, (∃ v ∈ values, x = "'" ++ valPartOf (escSq v) ++ "'") →
      wordsFreeB sqlWords x = true := by
    rintro x ⟨v, hvm, rfl⟩
    exact quoted_free _ (wordsFree_valPart sqlWords sqlWords_wf v (hv v hvm))
  have hjoin : ∀ (l : List String), (∀ x ∈ l, wordsFreeB sqlWords x = true) →
      wordsFreeB sqlWords (joinSep ", " l) = true := by
    intro l hl
    exact wordsFree_joinSep sqlWords sqlWords_wf ", " (by decide) (by decide)
      (by decide) (by decide) l hl
  intro s hs
  unfold subsOf at hs
  rcases List.mem_append.1 hs with hs | hs6
  rcases List.mem_append.1 hs with hs | hs5
  rcases List.mem_append.1 hs with hs | hs4
  rcases List.mem_append.1 hs with hs | hs3
  rcases List.mem_append.1 hs with hs1 | hs2
  · by_cases hne : numericValsOf values ≠ []
    · rw [if_pos hne] at hs1
      rcases List.mem_singleton.1 hs1 with rfl
      refine inGroup_free col " IN (" _ (Or.inl rfl) hcolf ?_
      exact hjoin _ (fun x hx => hvp x (mem_numericValsOf values x hx))
    · rw [if_neg hne] at hs1; cases hs1
  · by_cases hne : stringValsOf values ≠ []
    · rw [if_pos hne] at hs2
      rcases List.mem_singleton.1 hs2 with rfl
      refine inGroup_free col " IN (" _ (Or.inl rfl) hcolf ?_
      exact hjoin _ (fun x hx => hvq x (mem_stringValsOf values x hx))
    · rw [if_neg hne] at hs2; cases hs2
  · by_cases hne : notNumericValsOf values ≠ []
    · rw [if_pos hne] at hs3
      rcases List.mem_singleton.1 hs3 with rfl
      refine inGroup_free col " NOT IN (" _ (Or.inr rfl) hcolf ?_
      exact hjoin _ (fun x hx => hvp x (mem_notNumericValsOf values x hx))
    · rw [if_neg hne] at hs3; cases hs3
  · by_cases hne : notStringValsOf values ≠ []
    · rw [if_pos hne] at hs4
      rcases List.mem_singleton.1 hs4 with rfl
      refine inGroup_free col " NOT IN (" _ (Or.inr rfl) hcolf ?_
      exact hjoin _ (fun x hx => hvq x (mem_notStringValsOf values x hx))
    · rw [if_neg hne] at hs4; cases hs4
  · by_cases hne : values.any valIsNotNull = true
    · rw [if_pos hne] at hs5
      rcases List.mem_singleton.1 hs5 with rfl
      exact wordsFree_append _ sqlWords_wf col " IS NOT NULL" hcolf (by decide)
        (Or.inr (by decide))
    · rw [if_neg hne] at hs5; cases hs5
  · by_cases hne : values.any valIsNull = true
    · rw [if_pos hne] at hs6
      rcases List.mem_singleton.1 hs6 with rfl
      exact wordsFree_append _ sqlWords_wf col " IS NULL" hcolf (by decide)
        (Or.inr (by decide))
    · rw [if_neg hne] at hs6; cases hs6

theorem clauseFromList_facts (col : String) (values : List String) (c : String)
    (h : clauseFromList col values = some c)
    (hcolf : wordsFreeB sqlWords col = true)
    (hv : ∀ v ∈ values, wordsFreeB sqlWords v = true) :
    wordsFreeB sqlWords c = true ∧ ¬(c = "") ∧ ¬(c.data.getLast? = some ';') := by
  unfold clauseFromList at h
  by_cases he : (values.map escSq).isEmpty = true
  · rw [if_pos he] at h; cases h
  · rw [if_neg he] at h
    unfold orGroup at h
    by_cases hsub : subsOf col values = []
    · rw [if_pos hsub] at h; cases h
    · rw [if_neg hsub] at h
      injection h with h
      subst h
      refine ⟨?_, append_ne_empty_right _ ")" (by decide), ?_⟩
      · have hJ : wordsFreeB sqlWords (joinSep " OR " (subsOf col values)) = true := by
          refine wordsFree_joinSep sqlWords sqlWords_wf " OR " (by decide) (by decide)
            (by decide) (by decide) _ ?_
          exact subsOf_free col values hcolf hv
        refine wordsFree_append _ sqlWords_wf _ ")" ?_ (by decide) (Or.inr (by decide))
        exact wordsFree_append _ sqlWords_wf "(" _ (by decide) hJ (Or.inl (by decide))
      · rw [getLast?_append_str _ ")" (by decide)]
        decide

theorem filterClause_facts (col : String) (fv : FVal) (c : String)
    (h : filterClause col fv = some c)
    (hv : ∀ v ∈ fvalList fv, wordsFreeB sqlWords v = true) :
    wordsFreeB sqlWords c = true ∧ ¬(c = "") ∧ ¬(c.data.getLast? = some ';') := by
  have hin : inSchema col = true := (filterClause_shape col fv c h).1
  have hcolf := wordsFree_col col hin
  unfold filterClause at h
  by_cases hg : (!(validate_filter_column col) && !(inSchema col)) = true
  · rw [if_pos hg] at h; cases h
  · rw [if_neg hg] at h
    match fv, hv with
    | .s v, hv =>
      simp only at h
      by_cases h1 : valIsNotNull v = true
      · rw [if_pos h1] at h
        injection h with h2
        subst h2
        exact ⟨wordsFree_append _ sqlWords_wf col " IS NOT NULL" hcolf (by decide)
          (Or.inr (by decide)), append_ne_empty_right _ " IS NOT NULL" (by decide),
          by rw [getLast?_append_str _ " IS NOT NULL" (by decide)]; decide⟩
      · rw [if_neg (by simpa using h1)] at h
        by_cases h2 : valIsNull v = true
        · rw [if_pos h2] at h
          injection h with h3
          subst h3
          exact ⟨wordsFree_append _ sqlWords_wf col " IS NULL" hcolf (by decide)
            (Or.inr (by decide)), append_ne_empty_right _ " IS NULL" (by decide),
            by rw [getLast?_append_str _ " IS NULL" (by decide)]; decide⟩
        · rw [if_neg (by simpa using h2)] at h
          exact clauseFromList_facts col [v] c h hcolf (by
            intro x hx
            rcases List.mem_singleton.1 hx with rfl
            exact hv x (List.mem_singleton.2 rfl))
    | .l vs, hv =>
      simp only at h
      exact clauseFromList_facts col vs c h hcolf hv

theorem dataType_inSchema (c : String)
    (h : (startsWith "varchar" (lcS (dataTypeOf c)) || lcS (dataTypeOf c) = "string"
      || lcS (dataTypeOf c) = "text") = true) : inSchema c = true := by
  cases hs : inSchema c with
  | true => rfl
  | false =>
    exfalso
    have hdt : dataTypeOf c = "" := by
      unfold dataTypeOf
      unfold inSchema at hs
      cases hl : lookupA TABLE_SCHEMA c with
      | none => rfl
      | some m => rw [hl] at hs; cases hs
    rw [hdt] at h
    exact absurd h (by decide)

theorem likeClause_free (c low : String) (hcf : wordsFreeB sqlWords c = true)
    (hlf : wordsFreeB sqlWords low = true) :
    wordsFreeB sqlWords
      ("LOWER(CAST(" ++ c ++ " AS VARCHAR)) LIKE '%%" ++ low ++ "%%'") = true := by
  have h1 : wordsFreeB sqlWords ("LOWER(CAST(" ++ c) = true :=
    wordsFree_append _ sqlWords_wf _ _ (by decide) hcf (Or.inl (by decide))
  have h2 : wordsFreeB sqlWords ("LOWER(CAST(" ++ c ++ " AS VARCHAR)) LIKE '%%") = true :=
    wordsFree_append _ sqlWords_wf _ _ h1 (by decide) (Or.inr (by decide))
  have h3 : wordsFreeB sqlWords
      ("LOWER(CAST(" ++ c ++ " AS VARCHAR)) LIKE '%%" ++ low) = true := by
    refine wordsFree_append _ sqlWords_wf _ _ h2 hlf (Or.inl ?_)
    rw [lastNL_append _ " AS VARCHAR)) LIKE '%%" (by decide)]
    decide
  exact wordsFree_append _ sqlWords_wf _ "%%'" h3 (by decide) (Or.inr (by decide))

theorem fuzzyClause_facts (e : Entities) (gc : List String)
    (hfz : ∀ fv, e.fuzzy_value = some fv → wordsFreeB sqlWords fv = true) :
    ∀ c ∈ fuzzyClause e gc,
      wordsFreeB sqlWords c = true ∧ ¬(c = "") ∧ ¬(c.data.getLast? = some ';') := by
  intro c hc
  unfold fuzzyClause at hc
  cases hfv : e.fuzzy_value with
  | none => rw [hfv] at hc; cases hc
  | some fv =>
    rw [hfv] at hc
    simp only at hc
    have hlow : wordsFreeB sqlWords (escSq (lcS fv)) = true :=
      wordsFree_escSq sqlWords sqlWords_wf _ (wordsFree_lcS sqlWords fv (hfz fv hfv))
    split_ifs at hc <;>
      first
        | (rcases List.mem_singleton.1 hc with rfl
           refine ⟨?_, append_ne_empty_right _ " )" (by decide), by
             rw [getLast?_append_str _ " )" (by decide)]; decide⟩
           refine wordsFree_append _ sqlWords_wf _ " )" ?_ (by decide) (Or.inr (by decide))
           refine wordsFree_append _ sqlWords_wf "( " _ (by decide) ?_ (Or.inl (by decide))
           refine wordsFree_joinSep sqlWords sqlWords_wf " OR " (by decide) (by decide)
             (by decide) (by decide) _ ?_
           intro x hx
           obtain ⟨cc, hcc, rfl⟩ := List.mem_map.1 hx
           exact likeClause_free cc _
             (wordsFree_col cc (dataType_inSchema cc (List.mem_filter.1 hcc).2)) hlow)
        | cases hc

/-- Under benign filter values, fuzzy value and range dates, every WHERE
clause is free of the tracked words, nonempty, and does not end in `;`. -/
theorem whereClauses_facts (e : Entities) (gc : List String)
    (hf : ∀ kv ∈ e.filters, ∀ v ∈ fvalList kv.2, wordsFreeB sqlWords v = true)
    (hfz : ∀ fv, e.fuzzy_value = some fv → wordsFreeB sqlWords fv = true)
    (hsd : ∀ sd, e.time.start_date = some sd → wordsFreeB sqlWords sd = true)
    (hed : ∀ ed, e.time.end_date = some ed → wordsFreeB sqlWords ed = true) :
    ∀ c ∈ whereClauses e gc,
      wordsFreeB sqlWords c = true ∧ ¬(c = "") ∧ ¬(c.data.getLast? = some ';') := by
  intro c hc
  unfold whereClauses at hc
  rcases List.mem_append.1 hc with hc | hc5
  rcases List.mem_append.1 hc with hc | hc4
  rcases List.mem_append.1 hc with hc | hc3
  rcases List.mem_append.1 hc with hc1 | hc2
  · exact productClause_facts e c hc1
  · exact timeClause_facts e hsd hed c hc2
  · exact flagClause_facts e c hc3
  · obtain ⟨kv, hkv, hfc⟩ := List.mem_filterMap.1 hc4
    exact filterClause_facts kv.1 kv.2 c hfc (hf kv hkv)
  · exact fuzzyClause_facts e gc hfz c hc5

theorem unpackColOk (s : String) (h : colOkB s = true) :
    ¬(s = "") ∧ ¬(s.data.getLast? = some ';') := by
  unfold colOkB at h
  simp only [Bool.and_eq_true, Bool.not_eq_true'] at h
  exact ⟨of_decide_eq_false h.1.1, of_decide_eq_false h.1.2⟩

theorem dimsUsed_facts (e : Entities) : ∀ d ∈ dimsUsed e,
    wordsFreeB sqlWords d = true ∧ ¬(d = "") ∧ ¬(d.data.getLast? = some ';') := by
  intro d hd
  have hv := (List.mem_filter.1 hd).2
  unfold validate_dimension at hv
  rw [Bool.and_eq_true] at hv
  obtain ⟨h1, h2⟩ := unpackColOk d (colOk_of_inSchema d hv.1)
  exact ⟨wordsFree_col d hv.1, h1, h2⟩

theorem pattern_val_free (m : String) (hm : ∃ k, lookupA SQL_PATTERNS k = some m) :
    wordsFreeB sqlWords m = true := by
  obtain ⟨k, hk⟩ := hm
  have := List.all_eq_true.1 patterns_free (k, m) (lookupA_mem _ _ _ hk)
  rw [Bool.and_eq_true] at this
  exact this.1

theorem baseSelect_free (e : Entities) : ∀ p ∈ baseSelect e,
    wordsFreeB sqlWords p = true := by
  have hleads : wordsFreeB sqlWords leadsExpr = true := by decide
  intro p hp
  unfold baseSelect at hp
  by_cases hm : e.metrics ≠ []
  · rw [if_pos hm] at hp
    unfold metricSelects at hp
    simp only at hp
    by_cases hms : (e.metrics.filterMap (fun m => lookupA SQL_PATTERNS m)).isEmpty = true
    · rw [if_pos hms] at hp
      rcases List.mem_singleton.1 hp with rfl
      exact hleads
    · rw [if_neg hms] at hp
      obtain ⟨k, hk, hkv⟩ := List.mem_filterMap.1 hp
      exact pattern_val_free p ⟨k, hkv⟩
  · rw [if_neg hm] at hp
    rcases List.mem_singleton.1 hp with rfl
    unfold metricExprFinal
    cases hme : metricExprOf e with
    | none => exact hleads
    | some x =>
      unfold metricExprOf at hme
      cases hmk : e.metric with
      | none => rw [hmk] at hme; cases hme
      | some k =>
        rw [hmk] at hme
        simp only at hme
        by_cases hke : k = ""
        · rw [if_pos hke] at hme; cases hme
        · rw [if_neg hke] at hme
          exact pattern_val_free x ⟨k, hme⟩

theorem selWithDims_free (e : Entities) : ∀ p ∈ selWithDims e,
    wordsFreeB sqlWords p = true := by
  intro p hp
  unfold selWithDims at hp
  by_cases hd : dimsUsed e ≠ []
  · rw [if_pos hd] at hp
    rcases List.mem_append.1 hp with h | h
    · exact (dimsUsed_facts e p h).1
    · exact baseSelect_free e p h
  · rw [if_neg hd] at hp
    exact baseSelect_free e p hp

theorem grpWithDims_facts (e : Entities) : ∀ g ∈ grpWithDims e,
    wordsFreeB sqlWords g = true ∧ ¬(g = "") ∧ ¬(g.data.getLast? = some ';') := by
  intro g hg
  unfold grpWithDims at hg
  by_cases hd : dimsUsed e ≠ []
  · rw [if_pos hd] at hg
    exact dimsUsed_facts e g hg
  · rw [if_neg hd] at hg
    cases hg

theorem bexprOf_facts (e : Entities) (g : String) :
    wordsFreeB sqlWords (bexprOf e g) = true ∧ ¬(bexprOf e g = "") ∧
      ¬((bexprOf e g).data.getLast? = some ';') := by
  have hcore : ∀ pre : String, pre = "DATE_TRUNC('month', " ∨ pre = "DATE_TRUNC('week', " →
      wordsFreeB sqlWords (pre ++ dateColumn e ++ ")") = true ∧
        ¬(pre ++ dateColumn e ++ ")" = "") ∧
        ¬((pre ++ dateColumn e ++ ")" : String).data.getLast? = some ';') := by
    intro pre hpre
    refine ⟨?_, append_ne_empty_right _ ")" (by decide),
      by rw [getLast?_append_str _ ")" (by decide)]; decide⟩
    have h1 : wordsFreeB sqlWords (pre ++ dateColumn e) = true := by
      refine wordsFree_append _ sqlWords_wf _ _ ?_ (wordsFree_dateColumn e) (Or.inl ?_)
      · rcases hpre with rfl | rfl <;> decide
      · rcases hpre with rfl | rfl <;> decide
    exact wordsFree_append _ sqlWords_wf _ ")" h1 (by decide) (Or.inr (by decide))
  unfold bexprOf
  by_cases hg : g = "month"
  · rw [if_pos hg]; exact hcore _ (Or.inl rfl)
  · rw [if_neg hg]; exact hcore _ (Or.inr rfl)

theorem bucketStep_mem_sel (e : Entities) (sel grp : List String) (p : String)
    (hp : p ∈ (bucketStep e sel grp).1) :
    p ∈ sel ∨ ∃ g, p = bexprOf e g ++ " AS " ++ (if g = "month" then "month" else "week") := by
  unfold bucketStep at hp
  cases hgr : e.time.granularity with
  | none =>
    rw [hgr] at hp
    exact Or.inl hp
  | some g =>
    rw [hgr] at hp
    have hp2 : p ∈ (if g = "month" ∨ g = "week" then
        ((if sel.all (fun part => !(containsSub " AS month" part))
            then (bexprOf e g ++ " AS " ++ (if g = "month" then "month" else "week")) :: sel
            else sel),
         (if grp.contains (bexprOf e g) then grp else grp ++ [bexprOf e g]))
      else (sel, grp)).1 := hp
    by_cases hmw : g = "month" ∨ g = "week"
    · rw [if_pos hmw] at hp2
      by_cases hall : sel.all (fun part => !(containsSub " AS month" part)) = true
      · rw [if_pos hall] at hp2
        rcases List.mem_cons.1 hp2 with rfl | hp3
        · exact Or.inr ⟨g, rfl⟩
        · exact Or.inl hp3
      · rw [if_neg hall] at hp2
        exact Or.inl hp2
    · rw [if_neg hmw] at hp2
      exact Or.inl hp2

theorem bucketStep_mem_grp (e : Entities) (sel grp : List String) (x : String)
    (hx : x ∈ (bucketStep e sel grp).2) :
    x ∈ grp ∨ ∃ g, x = bexprOf e g := by
  unfold bucketStep at hx
  cases hgr : e.time.granularity with
  | none =>
    rw [hgr] at hx
    exact Or.inl hx
  | some g =>
    rw [hgr] at hx
    have hx2 : x ∈ (if g = "month" ∨ g = "week" then
        ((if sel.all (fun part => !(containsSub " AS month" part))
            then (bexprOf e g ++ " AS " ++ (if g = "month" then "month" else "week")) :: sel
            else sel),
         (if grp.contains (bexprOf e g) then grp else grp ++ [bexprOf e g]))
      else (sel, grp)).2 := hx
    by_cases hmw : g = "month" ∨ g = "week"
    · rw [if_pos hmw] at hx2
      by_cases hcontains : grp.contains (bexprOf e g) = true
      · rw [if_pos hcontains] at hx2
        exact Or.inl hx2
      · rw [if_neg hcontains] at hx2
        rcases List.mem_append.1 hx2 with h | h
        · exact Or.inl h
        · rcases List.mem_singleton.1 h with rfl
          exact Or.inr ⟨g, rfl⟩
    · rw [if_neg hmw] at hx2
      exact Or.inl hx2

theorem caseStep_mem_sel (e : Entities) (sel grp : List String) (p : String)
    (hp : p ∈ (caseStep e sel grp).1) :
    p ∈ sel ∨ p = "investmenttypeid" ∨ p = productCaseSelect := by
  unfold caseStep at hp
  by_cases h1 : (dimsUsed e).contains "investmenttypeid" = true
  · rw [if_pos h1] at hp
    by_cases h2 : idToName ≠ []
    · rw [if_pos h2] at hp
      rcases List.mem_cons.1 hp with rfl | hp2
      · exact Or.inr (Or.inl rfl)
      · rcases List.mem_cons.1 hp2 with heq | hp3
        · exact Or.inr (Or.inr heq)
        · exact Or.inl (List.mem_of_mem_filter hp3)
    · rw [if_neg h2] at hp
      exact Or.inl hp
  · rw [if_neg h1] at hp
    exact Or.inl hp

theorem caseStep_mem_grp (e : Entities) (sel grp : List String) (x : String)
    (hx : x ∈ (caseStep e sel grp).2) :
    x ∈ grp ∨ x = productCaseGroup := by
  unfold caseStep at hx
  by_cases h1 : (dimsUsed e).contains "investmenttypeid" = true
  · rw [if_pos h1] at hx
    by_cases h2 : idToName ≠ []
    · rw [if_pos h2] at hx
      by_cases h3 : grp.contains productCaseGroup = true
      · rw [if_pos h3] at hx
        exact Or.inl hx
      · rw [if_neg h3] at hx
        rcases List.mem_append.1 hx with h | h
        · exact Or.inl h
        · exact Or.inr (List.mem_singleton.1 h)
    · rw [if_neg h2] at hx
      exact Or.inl hx
  · rw [if_neg h1] at hx
    exact Or.inl hx

theorem productCaseSelect_free : wordsFreeB sqlWords productCaseSelect = true := by
  unfold productCaseSelect
  have h1 : wordsFreeB sqlWords ("CASE " ++ caseWhens) = true :=
    wordsFree_append _ sqlWords_wf _ _ (by decide) caseWhens_free (Or.inl (by decide))
  exact wordsFree_append _ sqlWords_wf _ " END AS product_name" h1 (by decide)
    (Or.inr (by decide))

theorem productCaseGroup_facts : wordsFreeB sqlWords productCaseGroup = true ∧
    ¬(productCaseGroup = "") ∧ ¬(productCaseGroup.data.getLast? = some ';') := by
  unfold productCaseGroup
  refine ⟨?_, append_ne_empty_right _ " END" (by decide),
    by rw [getLast?_append_str _ " END" (by decide)]; decide⟩
  have h1 : wordsFreeB sqlWords ("CASE " ++ caseWhens) = true :=
    wordsFree_append _ sqlWords_wf _ _ (by decide) caseWhens_free (Or.inl (by decide))
  exact wordsFree_append _ sqlWords_wf _ " END" h1 (by decide) (Or.inr (by decide))

theorem bucketSel_free (e : Entities) (g : String) :
    wordsFreeB sqlWords
      (bexprOf e g ++ " AS " ++ (if g = "month" then "month" else "week")) = true := by
  have h1 : wordsFreeB sqlWords (bexprOf e g ++ " AS ") = true :=
    wordsFree_append _ sqlWords_wf _ _ (bexprOf_facts e g).1 (by decide) (Or.inr (by decide))
  refine wordsFree_append _ sqlWords_wf _ _ h1 ?_ (Or.inl ?_)
  · by_cases hg : g = "month"
    · rw [if_pos hg]; decide
    · rw [if_neg hg]; decide
  · rw [lastNL_append _ " AS " (by decide)]
    decide

theorem sel_free (e : Entities) : ∀ p ∈ (selGrp e).1,
    wordsFreeB sqlWords p = true := by
  intro p hp
  rcases caseStep_mem_sel e _ _ p hp with h | h | h
  · rcases bucketStep_mem_sel e _ _ p h with h2 | ⟨g, rfl⟩
    · exact selWithDims_free e p h2
    · exact bucketSel_free e g
  · rw [h]; decide
  · rw [h]; exact productCaseSelect_free

theorem grp_facts (e : Entities) : ∀ x ∈ (selGrp e).2,
    wordsFreeB sqlWords x = true ∧ ¬(x = "") ∧ ¬(x.data.getLast? = some ';') := by
  intro x hx
  rcases caseStep_mem_grp e _ _ x hx with h | h
  · rcases bucketStep_mem_grp e _ _ x h with h2 | ⟨g, rfl⟩
    · exact grpWithDims_facts e x h2
    · exact bexprOf_facts e g
  · rw [h]; exact productCaseGroup_facts

theorem str_append_empty (s : String) : s ++ "" = s := by
  apply String.ext
  rw [String.data_append]
  exact List.append_nil _

theorem str_empty_append (s : String) : "" ++ s = s := by
  apply String.ext
  rw [String.data_append]
  rfl

theorem data_ne_nil (z : String) (h : ¬(z = "")) : z.data ≠ [] := by
  intro hd
  exact h (String.ext (by rw [hd]))

theorem getLast?_ne_none (l : List Char) (h : l ≠ []) : l.getLast? ≠ none := by
  cases l with
  | nil => exact absurd rfl h
  | cons c t => simp [List.getLast?_cons]

theorem joinSep_getLast (sep : String) (l : List String) (hl : l ≠ [])
    (hne : ∀ x ∈ l, ¬(x = "")) :
    ∃ x ∈ l, (joinSep sep l).data.getLast? = x.data.getLast? := by
  induction l with
  | nil => exact absurd rfl hl
  | cons x ys ih =>
    cases ys with
    | nil => exact ⟨x, by simp, rfl⟩
    | cons y zs =>
      obtain ⟨z, hz, hzeq⟩ := ih (by simp) (fun w hw => hne w (List.mem_cons_of_mem x hw))
      have hzd : z.data ≠ [] := data_ne_nil z (hne z (List.mem_cons_of_mem x hz))
      have hjne : (joinSep sep (y :: zs)).data ≠ [] := by
        intro hj
        rw [hj] at hzeq
        exact getLast?_ne_none z.data hzd hzeq.symm
      refine ⟨z, List.mem_cons_of_mem x hz, ?_⟩
      show ((x ++ sep) ++ joinSep sep (y :: zs)).data.getLast? = z.data.getLast?
      rw [getLast?_append_str _ _ hjne]
      exact hzeq

theorem joinSep_last_ne (sep : String) (l : List String) (hl : l ≠ [])
    (hfacts : ∀ x ∈ l, ¬(x = "") ∧ ¬(x.data.getLast? = some ';')) :
    (joinSep sep l).data ≠ [] ∧ ¬((joinSep sep l).data.getLast? = some ';') := by
  obtain ⟨x, hx, hxeq⟩ := joinSep_getLast sep l hl (fun w hw => (hfacts w hw).1)
  have hxd : x.data ≠ [] := data_ne_nil x (hfacts x hx).1
  constructor
  · intro hj
    rw [hj] at hxeq
    exact getLast?_ne_none x.data hxd hxeq.symm
  · rw [hxeq]
    exact (hfacts x hx).2

theorem startsWith_extend (p a b : String) (h : startsWith p a = true) :
    startsWith p (a ++ b) = true := by
  unfold startsWith at *
  rw [String.data_append]
  exact mPre_mono eqC p.data a.data b.data h

theorem sqlOf_split (e : Entities) (gc : List String) :
    sqlOf e gc = ("SELECT " ++ joinSep ", " (selGrp e).1)
      ++ (" FROM sme_analytics.sme_leadbookingrevenue"
          ++ (wherePart e gc ++ groupPart e)) := by
  unfold sqlOf sqlWithWhere sqlBase wherePart groupPart
  by_cases hg : (selGrp e).2 = []
  · by_cases hw : whereClauses e gc = []
    · simp only [if_pos hg, if_pos hw, str_append_empty]
    · simp only [if_pos hg, if_neg hw, str_append_empty, String.append_assoc]
  · by_cases hw : whereClauses e gc = []
    · simp only [if_neg hg, if_pos hw, str_empty_append, String.append_assoc]
    · simp only [if_neg hg, if_neg hw, String.append_assoc]

theorem wherePart_free (e : Entities) (gc : List String)
    (hW : ∀ c ∈ whereClauses e gc,
      wordsFreeB sqlWords c = true ∧ ¬(c = "") ∧ ¬(c.data.getLast? = some ';')) :
    wordsFreeB sqlWords (wherePart e gc) = true := by
  unfold wherePart
  by_cases hw : whereClauses e gc = []
  · rw [if_pos hw]
    exact wordsFree_empty sqlWords sqlWords_wf
  · rw [if_neg hw]
    refine wordsFree_append _ sqlWords_wf " WHERE " _ (by decide) ?_ (Or.inl (by decide))
    exact wordsFree_joinSep sqlWords sqlWords_wf " AND " (by decide) (by decide)
      (by decide) (by decide) _ (fun c hc => (hW c hc).1)

theorem groupPart_free (e : Entities) :
    wordsFreeB sqlWords (groupPart e) = true := by
  unfold groupPart
  by_cases hg : (selGrp e).2 = []
  · rw [if_pos hg]
    exact wordsFree_empty sqlWords sqlWords_wf
  · rw [if_neg hg]
    refine wordsFree_append _ sqlWords_wf " GROUP BY " _ (by decide) ?_ (Or.inl (by decide))
    exact wordsFree_joinSep sqlWords sqlWords_wf ", " (by decide) (by decide)
      (by decide) (by decide) _ (fun x hx => (grp_facts e x hx).1)

theorem groupPart_headNL (e : Entities) : headNL (groupPart e) = true := by
  unfold groupPart
  by_cases hg : (selGrp e).2 = []
  · rw [if_pos hg]; decide
  · rw [if_neg hg]
    rw [headNL_append _ _ (by decide)]
    decide

theorem tail_headNL (e : Entities) (gc : List String) :
    headNL (wherePart e gc ++ groupPart e) = true := by
  have hgp : headNL (groupPart e) = true := groupPart_headNL e
  unfold wherePart
  by_cases hw : whereClauses e gc = []
  · rw [if_pos hw, str_empty_append]
    exact hgp
  · rw [if_neg hw]
    rw [headNL_append _ _ (by
      rw [String.data_append]
      intro hcontra
      exact absurd (List.append_eq_nil.1 hcontra).1 (by decide))]
    rw [headNL_append _ _ (by decide)]
    decide

/-- The last character of the assembled SQL (a table-name letter, a WHERE
clause terminator, or a GROUP BY element terminator) is never `;`. -/
theorem sqlOf_last (e : Entities) (gc : List String)
    (hW : ∀ c ∈ whereClauses e gc, ¬(c = "") ∧ ¬(c.data.getLast? = some ';')) :
    ¬((sqlOf e gc).data.getLast? = some ';') := by
  unfold sqlOf sqlWithWhere
  by_cases hg : (selGrp e).2 = []
  · rw [if_pos hg]
    by_cases hw : whereClauses e gc = []
    · rw [if_pos hw]
      unfold sqlBase
      rw [getLast?_append_str _ " FROM sme_analytics.sme_leadbookingrevenue" (by decide)]
      decide
    · rw [if_neg hw]
      obtain ⟨hWne, hWlast⟩ := joinSep_last_ne " AND " (whereClauses e gc) hw hW
      rw [getLast?_append_str _ _ hWne]
      exact hWlast
  · rw [if_neg hg]
    obtain ⟨hGne, hGlast⟩ := joinSep_last_ne ", " ((selGrp e).2) hg
      (fun x hx => ⟨(grp_facts e x hx).2.1, (grp_facts e x hx).2.2⟩)
    rw [getLast?_append_str _ _ hGne]
    exact hGlast

/-- Without any benign-value hypothesis: every WHERE clause is nonempty and
ends in `)`, `'` or `L` — never in `;`. -/
theorem timeClause_basic (e : Entities) :
    ∀ c ∈ timeClause e, ¬(c = "") ∧ ¬(c.data.getLast? = some ';') := by
  have hfrag : ∀ c, c ∈ build_time_where e.time.key (dateColumn e) →
      ¬(c = "") ∧ ¬(c.data.getLast? = some ';') := by
    intro c hc2
    have hsub := build_time_where_sub _ _ _ hc2
    have hboth := timeFrags_free
    rw [Bool.and_eq_true] at hboth
    rcases dateColumn_cases e with hdc | hdc <;> rw [hdc] at hsub
    · exact (unpack3 _ _ _ (List.all_eq_true.1 hboth.1 c hsub)).2
    · exact (unpack3 _ _ _ (List.all_eq_true.1 hboth.2 c hsub)).2
  intro c hc
  unfold timeClause at hc
  cases hsd2 : e.time.start_date with
  | none =>
    rw [hsd2] at hc
    cases hed2 : e.time.end_date with
    | none => rw [hed2] at hc; exact hfrag c hc
    | some ed => rw [hed2] at hc; exact hfrag c hc
  | some sd =>
    rw [hsd2] at hc
    cases hed2 : e.time.end_date with
    | none => rw [hed2] at hc; exact hfrag c hc
    | some ed =>
      rw [hed2] at hc
      have hc2 : c ∈ (if sd ≠ "" ∧ ed ≠ "" then
          ["DATE(" ++ dateColumn e ++ ") >= DATE '" ++ sd ++ "'",
           "DATE(" ++ dateColumn e ++ ") <= DATE '" ++ ed ++ "'"]
        else build_time_where e.time.key (dateColumn e)) := hc
      by_cases hne : sd ≠ "" ∧ ed ≠ ""
      · rw [if_pos hne] at hc2
        rcases List.mem_cons.1 hc2 with rfl | hc3
        · exact ⟨append_ne_empty_right _ "'" (by decide),
            by rw [getLast?_append_str _ "'" (by decide)]; decide⟩
        · rcases List.mem_singleton.1 hc3 with rfl
          exact ⟨append_ne_empty_right _ "'" (by decide),
            by rw [getLast?_append_str _ "'" (by decide)]; decide⟩
      · rw [if_neg hne] at hc2
        exact hfrag c hc2

/-- Without any benign-value hypothesis: every WHERE clause (product, time,
flag, filter OR-group, IS-(NOT-)NULL, fuzzy group) is nonempty and does not
end in `;`. -/
theorem whereClauses_basic (e : Entities) (gc : List String) :
    ∀ c ∈ whereClauses e gc, ¬(c = "") ∧ ¬(c.data.getLast? = some ';') := by
  intro c hc
  unfold whereClauses at hc
  rcases List.mem_append.1 hc with hc | hc5
  rcases List.mem_append.1 hc with hc | hc4
  rcases List.mem_append.1 hc with hc | hc3
  rcases List.mem_append.1 hc with hc1 | hc2
  · exact ⟨(productClause_facts e c hc1).2.1, (productClause_facts e c hc1).2.2⟩
  · exact timeClause_basic e c hc2
  · exact ⟨(flagClause_facts e c hc3).2.1, (flagClause_facts e c hc3).2.2⟩
  · obtain ⟨kv, hkv, hfc⟩ := List.mem_filterMap.1 hc4
    rcases (filterClause_shape kv.1 kv.2 c hfc).2 with ⟨j, heq⟩ | heq | heq
    · subst heq
      exact ⟨append_ne_empty_right _ ")" (by decide),
        by rw [getLast?_append_str _ ")" (by decide)]; decide⟩
    · subst heq
      exact ⟨append_ne_empty_right _ " IS NOT NULL" (by decide),
        by rw [getLast?_append_str _ " IS NOT NULL" (by decide)]; decide⟩
    · subst heq
      exact ⟨append_ne_empty_right _ " IS NULL" (by decide),
        by rw [getLast?_append_str _ " IS NULL" (by decide)]; decide⟩
  · obtain ⟨j, heq⟩ := fuzzyClause_shape e gc c hc5
    subst heq
    exact ⟨append_ne_empty_right _ " )" (by decide),
      by rw [getLast?_append_str _ " )" (by decide)]; decide⟩


set_option maxRecDepth 40000 in
/-- C1: for every intent record with intent `metric_query` (and any effective
fuzzy-column list), `build_sql` returns a SQL string that starts with
`SELECT ` and does not end in `;` — unconditionally, for arbitrary filter,
fuzzy and date values — and, provided the filter values, the fuzzy free-text
value and the custom range dates contain no mutating keyword and no `from`
as case-insensitive substrings, the SQL also contains no mutating keyword
(DROP, DELETE, INSERT, UPDATE, ALTER, CREATE, TRUNCATE, case-insensitive)
and splits as `SELECT <sel> FROM sme_analytics.sme_leadbookingrevenue<rest>`
where neither `<sel>` nor `<rest>` mentions `from`, so the one allowed table
is the only table referenced.  (Dimension names may be arbitrary: non-schema
dimensions are dropped by validation.)  The unqualified keyword claim — with
arbitrary filter or fuzzy values — is refuted by
`c1_sql_safety_counterexample`. -/
theorem c1_sql_safety_amended (e : Entities) (gc : List String)
    (hint : e.intent = "metric_query") :
    build_sql e gc = ⟨"metric_query", some (sqlOf e gc)⟩ ∧
    startsWith "SELECT " (sqlOf e gc) = true ∧
    ¬((sqlOf e gc).data.getLast? = some ';') ∧
    ((∀ kv ∈ e.filters, ∀ v ∈ fvalList kv.2, wordsFreeB sqlWords v = true) →
     (∀ fv, e.fuzzy_value = some fv → wordsFreeB sqlWords fv = true) →
     (∀ sd, e.time.start_date = some sd → wordsFreeB sqlWords sd = true) →
     (∀ ed, e.time.end_date = some ed → wordsFreeB sqlWords ed = true) →
     (∀ kw ∈ mutKeywords, containsCI kw (sqlOf e gc) = false) ∧
     (∃ sel rest : String,
       sqlOf e gc = ("SELECT " ++ sel)
         ++ (" FROM sme_analytics.sme_leadbookingrevenue" ++ rest) ∧
       containsCI "from" sel = false ∧ containsCI "from" rest = false)) := by
  have hsplit := sqlOf_split e gc
  refine ⟨?_, ?_, ?_, ?_⟩
  · unfold build_sql
    rw [hint, if_neg (fun hcon => hcon rfl)]
  · rw [hsplit]
    exact startsWith_extend _ _ _ (startsWith_append "SELECT " _)
  · exact sqlOf_last e gc (whereClauses_basic e gc)
  · intro hf hfz hsd hed
    have hWfull := whereClauses_facts e gc hf hfz hsd hed
    have hJ : wordsFreeB sqlWords (joinSep ", " (selGrp e).1) = true :=
      wordsFree_joinSep sqlWords sqlWords_wf ", " (by decide) (by decide)
        (by decide) (by decide) _ (sel_free e)
    have hTail : wordsFreeB sqlWords (wherePart e gc ++ groupPart e) = true :=
      wordsFree_append _ sqlWords_wf _ _ (wherePart_free e gc hWfull)
        (groupPart_free e) (Or.inr (groupPart_headNL e))
    refine ⟨?_, ?_⟩
    · have m1 : wordsFreeB mutKeywords ("SELECT " ++ joinSep ", " (selGrp e).1) = true :=
        wordsFree_append _ mutKeywords_wf _ _ (by decide)
          (wordsFree_subset _ _ mutKeywords_sub _ hJ) (Or.inl (by decide))
      have m2 : wordsFreeB mutKeywords (" FROM sme_analytics.sme_leadbookingrevenue"
          ++ (wherePart e gc ++ groupPart e)) = true :=
        wordsFree_append _ mutKeywords_wf _ _ (by decide)
          (wordsFree_subset _ _ mutKeywords_sub _ hTail) (Or.inr (tail_headNL e gc))
      have mall : wordsFreeB mutKeywords (sqlOf e gc) = true := by
        rw [hsplit]
        refine wordsFree_append _ mutKeywords_wf _ _ m1 m2 (Or.inr ?_)
        rw [headNL_append _ _ (by decide)]
        decide
      intro kw hkw
      have h := List.all_eq_true.1 mall kw hkw
      simpa using h
    · refine ⟨joinSep ", " (selGrp e).1, wherePart e gc ++ groupPart e, hsplit, ?_, ?_⟩
      · have h := List.all_eq_true.1 (wordsFree_subset _ _ fromWord_sub _ hJ) "from"
          (List.mem_singleton.2 rfl)
        simpa using h
      · have h := List.all_eq_true.1 (wordsFree_subset _ _ fromWord_sub _ hTail) "from"
          (List.mem_singleton.2 rfl)
        simpa using h

set_option maxRecDepth 40000 in
/-- C1 counterexample: with the arbitrary filter value `"dropout"` on the
schema column `city`, `build_sql` emits that value into the SQL text, which
therefore contains the mutating keyword `drop` as a case-insensitive
substring — the spec's unconditional safety claim fails for arbitrary
filter values. -/
theorem c1_sql_safety_counterexample :
    (build_sql c1E []).sql = some
      "SELECT COUNT(*) as leads FROM sme_analytics.sme_leadbookingrevenue WHERE (city IN ('dropout'))"
    ∧ containsCI "drop"
      "SELECT COUNT(*) as leads FROM sme_analytics.sme_leadbookingrevenue WHERE (city IN ('dropout'))"
      = true := by
  exact ⟨by decide, by decide⟩

set_option maxRecDepth 40000 in
theorem c1_sql_safety_amended_witness :
    startsWith "SELECT " (sqlOf c1W []) = true ∧
    ¬((sqlOf c1W []).data.getLast? = some ';') ∧
    (∀ kw ∈ mutKeywords, containsCI kw (sqlOf c1W []) = false) := by
  have h := c1_sql_safety_amended c1W [] rfl
  refine ⟨h.2.1, h.2.2.1, ?_⟩
  exact (h.2.2.2 (by decide) (fun fv hfv => nomatch hfv)
    (fun sd hsd => by
      have h2 := Option.some.inj hsd
      rw [← h2]; decide)
    (fun ed hed => by
      have h2 := Option.some.inj hed
      rw [← h2]; decide)).1
